import Mathlib

/-!
# Verification of the `hc` request-tool core

Shallow embedding of the `hc` repository's persistence layer
(`internal/storage/sqlite.go`), HTTP adapter (`internal/server/server.go`),
and proxy/validation helpers (`internal/proxy`), together with proofs about
the spec's claims over that embedding.

Modelling conventions:
* Go `int` identifiers are `Int`; timestamps (`DATETIME`/`CURRENT_TIMESTAMP`)
  are `Nat` ticks of a non-decreasing wall clock carried in the store state.
* Go maps `map[string]string` are association lists `List (String × String)`
  with distinct keys; a possibly-`nil` Go map or slice is an `Option` so that
  the `nil`/empty distinction visible to Go (and to JSON encoding) is kept.
* Fallible Go functions return `Except DbErr`; the distinct error strings of
  the source (`"folder not found"`, `"request not found"`, deserialization
  failures, engine faults) are the constructors of `DbErr`.
* `InitDB` opens the SQLite connection with `sql.Open("sqlite3", dbPath)` and
  no `_foreign_keys` DSN option, so SQLite's default `PRAGMA foreign_keys=OFF`
  applies: the `ON DELETE CASCADE` / `ON DELETE SET NULL` clauses declared in
  the two `CREATE TABLE` statements are never enforced at runtime.  The store
  operations below model that actual runtime behaviour.
-/

namespace HC

/-- Decidable equality of `Except` results, used to evaluate claims on
concrete inputs. -/
instance {ε α : Type} [DecidableEq ε] [DecidableEq α] : DecidableEq (Except ε α)
  | .error e1, .error e2 => decidable_of_iff (e1 = e2) (by simp)
  | .error _, .ok _ => .isFalse (by simp)
  | .ok _, .error _ => .isFalse (by simp)
  | .ok v1, .ok v2 => decidable_of_iff (v1 = v2) (by simp)

/-- ASCII upper-casing of one character (the fragment of Go `strings.ToUpper`
relevant to the validator claims, whose inputs are ASCII method names). -/
def asciiUpper (c : Char) : Char :=
  if 97 ≤ c.toNat ∧ c.toNat ≤ 122 then Char.ofNat (c.toNat - 32) else c

/-- ASCII lower-casing of one character. -/
def asciiLower (c : Char) : Char :=
  if 65 ≤ c.toNat ∧ c.toNat ≤ 90 then Char.ofNat (c.toNat + 32) else c

/-- Go `strings.ToUpper`, modelled on its ASCII fragment. -/
def goToUpper (s : String) : String :=
  ⟨s.data.map asciiUpper⟩

/-- Decimal digits of Go `strconv.Atoi`: `none` unless the list is one or
more ASCII digits. -/
def digitsToNat : List Char → Option Nat
  | [] => none
  | ds =>
    if ds.all (fun c => 48 ≤ c.toNat ∧ c.toNat ≤ 57) then
      some (ds.foldl (fun acc c => 10 * acc + (c.toNat - 48)) 0)
    else none

/-- Go `strconv.Atoi`: optional sign followed by one or more digits
(overflow is not modelled; ids in scope are small). -/
def parseAtoi (s : String) : Option Int :=
  match s.data with
  | '+' :: ds => (digitsToNat ds).map Int.ofNat
  | '-' :: ds => (digitsToNat ds).map (fun n => -(n : Int))
  | ds => (digitsToNat ds).map Int.ofNat

/-! ## Data model (`internal/models`, `internal/storage`) -/

/-- A `map[string]string` value (header mapping) as an association list with
distinct keys.  `Option HeaderMap` models a Go map that may be `nil`. -/
abbrev HeaderMap := List (String × String)

/-- Key list of a header mapping. -/
def hmKeys (h : HeaderMap) : List String := h.map Prod.fst

/-- A row of the `folders` table (also `models.Folder`). -/
structure FolderRow where
  id : Int
  name : String
  parentId : Option Int
  createdAt : Nat
  updatedAt : Nat
deriving Repr, DecidableEq

/-- A row of the `requests` table: the `headers` column is TEXT, holding the
JSON encoding produced by `serializeHeaders`. -/
structure RequestRow where
  id : Int
  name : String
  folderId : Option Int
  method : String
  url : String
  headers : String
  body : String
  createdAt : Nat
  updatedAt : Nat
deriving Repr, DecidableEq

/-- `models.Request` as returned to callers: `headers` is the deserialized
mapping, `none` modelling a `nil` Go map. -/
structure RequestOut where
  id : Int
  name : String
  folderId : Option Int
  method : String
  url : String
  headers : Option HeaderMap
  body : String
  createdAt : Nat
  updatedAt : Nat
deriving Repr, DecidableEq

/-- The SQLite database state: both tables, their `AUTOINCREMENT` counters
(SQLite never reuses an autoincrement id), and the wall clock that
`CURRENT_TIMESTAMP` reads. -/
structure Store where
  folders : List FolderRow
  requests : List RequestRow
  nextFolderId : Int
  nextRequestId : Int
  clock : Nat
deriving Repr, DecidableEq

/-- The freshly initialized database (`InitDB` on a new file). -/
def emptyStore : Store :=
  { folders := [], requests := [], nextFolderId := 1, nextRequestId := 1, clock := 0 }

/-- The distinct failures the storage layer produces, one constructor per
distinct error the Go code builds: `fmt.Errorf("<entity> not found")`,
header-deserialization failures, and engine faults. -/
inductive DbErr where
  | notFound (entity : String)
  | deserialize (msg : String)
  | storage (msg : String)
deriving Repr, DecidableEq

/-- `SELECT ... FROM folders WHERE id = ?` (at most one row: `id` is the
primary key). -/
def findFolder (id : Int) (s : Store) : Option FolderRow :=
  s.folders.find? (fun f => f.id == id)

/-- `SELECT ... FROM requests WHERE id = ?`. -/
def findRequest (id : Int) (s : Store) : Option RequestRow :=
  s.requests.find? (fun r => r.id == id)

/-- `CURRENT_TIMESTAMP` for a call issued at wall time `now`: the wall clock
never goes backwards, so the store clock advances to `max clock now`. -/
def tick (s : Store) (now : Nat) : Nat := max s.clock now

/-! ## Folder CRUD (`sqlite.go`) -/

/-- `GetFolder`: point lookup; `sql.ErrNoRows` becomes the distinguished
error `fmt.Errorf("folder not found")`. -/
def GetFolder (id : Int) (s : Store) : Except DbErr FolderRow :=
  match findFolder id s with
  | some f => .ok f
  | none => .error (.notFound "folder")

/-- `CreateFolder`: `INSERT INTO folders (name, parent_id) VALUES (?, ?)`
(both timestamps default to `CURRENT_TIMESTAMP`), then `LastInsertId` is
written into the caller's record, then the row is re-read with `GetFolder`.
The insert is not inside a transaction, so it persists even when the
follow-up read fails; `readFault` injects such an engine read failure.
Returns (call result, id assigned to the caller's record, post-state). -/
def CreateFolder (now : Nat) (name : String) (parentId : Option Int)
    (readFault : Bool) (s : Store) : Except DbErr FolderRow × Int × Store :=
  let t := tick s now
  let row : FolderRow :=
    { id := s.nextFolderId, name := name, parentId := parentId,
      createdAt := t, updatedAt := t }
  let s1 : Store :=
    { s with folders := s.folders ++ [row], nextFolderId := s.nextFolderId + 1,
             clock := t }
  if readFault then (.error (.storage "read failed"), row.id, s1)
  else ((GetFolder row.id s1).map id, row.id, s1)

/-- `GetFolders`: `SELECT ... ORDER BY name` (SQLite BINARY collation =
codepoint order), rows appended to a `nil` slice — zero rows leaves the
slice `nil`, modelled as `none`. -/
def GetFolders (s : Store) : Option (List FolderRow) :=
  (s.folders.insertionSort (fun a b => a.name ≤ b.name)).foldl
    (fun acc f => some (acc.getD [] ++ [f])) none

/-- `UPDATE folders SET name = ?, parent_id = ?, updated_at =
CURRENT_TIMESTAMP WHERE id = ?` applied to one row. -/
def applyFolderUpdate (id : Int) (name : String) (parentId : Option Int)
    (t : Nat) (f : FolderRow) : FolderRow :=
  if f.id == id then { f with name := name, parentId := parentId, updatedAt := t }
  else f

/-- `UpdateFolder`: runs the UPDATE, then fails with
`fmt.Errorf("folder not found")` when `RowsAffected` is zero. -/
def UpdateFolder (now : Nat) (id : Int) (name : String) (parentId : Option Int)
    (s : Store) : Except DbErr Unit × Store :=
  let t := tick s now
  let affected := s.folders.countP (fun f => f.id == id)
  let s1 : Store :=
    { s with folders := s.folders.map (applyFolderUpdate id name parentId t),
             clock := t }
  if affected == 0 then (.error (.notFound "folder"), s1) else (.ok (), s1)

/-- `DeleteFolder`: `DELETE FROM folders WHERE id = ?`, then
`fmt.Errorf("folder not found")` when `RowsAffected` is zero.  Foreign-key
enforcement is OFF (see module comment), so no cascade runs: child folders
and request `folder_id` references are untouched. -/
def DeleteFolder (id : Int) (s : Store) : Except DbErr Unit × Store :=
  let affected := s.folders.countP (fun f => f.id == id)
  let s1 : Store := { s with folders := s.folders.filter (fun f => !(f.id == id)) }
  if affected == 0 then (.error (.notFound "folder"), s1) else (.ok (), s1)

/-! ## JSON encoding of header maps (`serializeHeaders` / `deserializeHeaders`)

`serializeHeaders` calls `json.Marshal` on the (nil-defaulted) map;
`deserializeHeaders` returns an empty map for the empty string and otherwise
calls `json.Unmarshal`.  The encoder below models `encoding/json`'s output
for `map[string]string`: keys sorted bytewise, no whitespace, strings quoted
with the HTML-escaping encoder.  The decoder models the fragment of
`json.Unmarshal` reachable for a `map[string]string` target: an object of
string keys/values (or the literal `null`, which leaves the map `nil`),
with whitespace allowed between tokens.  Surrogate-pair escapes are outside
the model (the encoder never emits them). -/

/-- Lower-case hex digit (`encoding/json` uses `"0123456789abcdef"`). -/
def hexDigit (n : Nat) : Char :=
  if n < 10 then Char.ofNat (48 + n) else Char.ofNat (87 + n)

/-- Value of one hex digit, upper or lower case. -/
def hexVal (c : Char) : Option Nat :=
  let n := c.toNat
  if 48 ≤ n ∧ n ≤ 57 then some (n - 48)
  else if 97 ≤ n ∧ n ≤ 102 then some (n - 87)
  else if 65 ≤ n ∧ n ≤ 70 then some (n - 55)
  else none

/-- `encoding/json` string escaping (HTML-escaping on, the `json.Marshal`
default): quote and backslash escaped, `\n` `\r` `\t` named, other control
characters and `<` `>` `&` as `\u00xx`, U+2028/U+2029 escaped, everything
else literal. -/
def escapeChar (c : Char) : List Char :=
  let n := c.toNat
  if n = 34 then ['\\', '"']
  else if n = 92 then ['\\', '\\']
  else if n = 10 then ['\\', 'n']
  else if n = 13 then ['\\', 'r']
  else if n = 9 then ['\\', 't']
  else if n < 32 ∨ n = 60 ∨ n = 62 ∨ n = 38 then
    ['\\', 'u', '0', '0', hexDigit (n / 16), hexDigit (n % 16)]
  else if n = 8232 ∨ n = 8233 then
    ['\\', 'u', '2', '0', '2', if n = 8232 then '8' else '9']
  else [c]

/-- Escape a whole string body. -/
def escapeList : List Char → List Char
  | [] => []
  | c :: cs => escapeChar c ++ escapeList cs

/-- A JSON string literal: quote, escaped body, quote. -/
def encStr (s : List Char) : List Char :=
  '"' :: escapeList s ++ ['"']

/-- The single-character escapes accepted after a backslash. -/
def simpleEscape : Char → Option Char
  | '"' => some '"'
  | '\\' => some '\\'
  | '/' => some '/'
  | 'b' => some (Char.ofNat 8)
  | 'f' => some (Char.ofNat 12)
  | 'n' => some (Char.ofNat 10)
  | 'r' => some (Char.ofNat 13)
  | 't' => some (Char.ofNat 9)
  | _ => none

/-- JSON string-literal body parser, entered after the opening quote.
Returns the decoded body and the remainder after the closing quote.
Raw control characters are rejected, as in `encoding/json`. -/
def decStr : List Char → Option (List Char × List Char)
  | [] => none
  | c :: rest =>
    if c = '"' then some ([], rest)
    else if c = '\\' then
      match rest with
      | [] => none
      | e :: rest1 =>
        if e = 'u' then
          match rest1 with
          | h1 :: h2 :: h3 :: h4 :: rest2 =>
            match hexVal h1, hexVal h2, hexVal h3, hexVal h4 with
            | some a, some b, some cc, some d =>
              (decStr rest2).map
                (fun p => (Char.ofNat (4096 * a + 256 * b + 16 * cc + d) :: p.1, p.2))
            | _, _, _, _ => none
          | _ => none
        else
          match simpleEscape e with
          | some c2 => (decStr rest1).map (fun p => (c2 :: p.1, p.2))
          | none => none
    else if c.toNat < 32 then none
    else (decStr rest).map (fun p => (c :: p.1, p.2))

/-- JSON insignificant whitespace. -/
def isWs (c : Char) : Bool :=
  c == ' ' || c == '\t' || c == '\n' || c == '\r'

/-- Skip insignificant whitespace. -/
def skipWs : List Char → List Char
  | [] => []
  | c :: cs => if isWs c then skipWs cs else c :: cs

/-- Parse the members of a JSON object of string keys and string values,
entered at the first key's opening quote; returns the members in textual
order and the remainder after the closing brace.  `fuel` bounds recursion
(one unit per member suffices). -/
def decodeEntries : Nat → List Char → Option (List (String × String) × List Char)
  | 0, _ => none
  | fuel + 1, input =>
    match input with
    | [] => none
    | c :: r0 =>
      if c = '"' then
        match decStr r0 with
        | none => none
        | some (k, r1) =>
          match skipWs r1 with
          | [] => none
          | c2 :: r2 =>
            if c2 = ':' then
              match skipWs r2 with
              | [] => none
              | c3 :: r3 =>
                if c3 = '"' then
                  match decStr r3 with
                  | none => none
                  | some (v, r4) =>
                    match skipWs r4 with
                    | [] => none
                    | c4 :: r5 =>
                      if c4 = ',' then
                        match decodeEntries fuel (skipWs r5) with
                        | some (es, r6) => some ((String.mk k, String.mk v) :: es, r6)
                        | none => none
                      else if c4 = '}' then
                        some ([(String.mk k, String.mk v)], r5)
                      else none
                else none
            else none
      else none

/-- Object-member accumulation: a later duplicate key overwrites the earlier
one (`m[key] = value` per member in `encoding/json`). -/
def insertPair (m : HeaderMap) (k v : String) : HeaderMap :=
  if m.any (fun p => p.1 == k) then
    m.map (fun p => if p.1 == k then (k, v) else p)
  else m ++ [(k, v)]

/-- `json.Unmarshal` into a `map[string]string` target: accepts `null`
(leaving the map `nil`) or an object of string members; anything else, or
trailing non-whitespace, is an error (`none`). -/
def topDecode (cs : List Char) : Option (Option HeaderMap) :=
  match skipWs cs with
  | [] => none
  | c :: rest =>
    if c = 'n' then
      match rest with
      | u :: l1 :: l2 :: rest2 =>
        if u = 'u' ∧ l1 = 'l' ∧ l2 = 'l' ∧ skipWs rest2 = [] then some none
        else none
      | _ => none
    else if c = '{' then
      match skipWs rest with
      | [] => none
      | c2 :: r1 =>
        if c2 = '}' then (if skipWs r1 = [] then some (some []) else none)
        else
          match decodeEntries (cs.length + 1) (c2 :: r1) with
          | some (es, r2) =>
            if skipWs r2 = [] then
              some (some (es.foldl (fun m p => insertPair m p.1 p.2) []))
            else none
          | none => none
    else none

/-- Sort members by key, bytewise ascending (`encoding/json` sorts map keys;
UTF-8 byte order coincides with codepoint order). -/
def sortPairs (h : HeaderMap) : HeaderMap :=
  h.insertionSort (fun a b => a.1 ≤ b.1)

/-- Comma-separated `"key":"value"` members. -/
def encodeMapEntries : HeaderMap → List Char
  | [] => []
  | [(k, v)] => encStr k.data ++ ':' :: encStr v.data
  | (k, v) :: rest => encStr k.data ++ ':' :: encStr v.data ++ ',' :: encodeMapEntries rest

/-- `serializeHeaders`: a `nil` map is replaced by an empty one, then
`json.Marshal` encodes the map (sorted keys, no whitespace; the empty map
encodes to the text `"\x7b\x7d"`). -/
def serializeHeaders (h : Option HeaderMap) : String :=
  String.mk ('{' :: encodeMapEntries (sortPairs (h.getD [])) ++ ['}'])

/-- `deserializeHeaders`: the empty string yields a fresh empty map without
touching the JSON decoder; otherwise `json.Unmarshal` runs, and its failure
is propagated. -/
def deserializeHeaders (s : String) : Except DbErr (Option HeaderMap) :=
  if s = "" then .ok (some [])
  else
    match topDecode s.data with
    | some m => .ok m
    | none => .error (.deserialize "invalid JSON")

/-! ## Request CRUD (`sqlite.go`) -/

/-- Convert a stored row plus its deserialized headers to `models.Request`. -/
def rowToRequestOut (r : RequestRow) (h : Option HeaderMap) : RequestOut :=
  { id := r.id, name := r.name, folderId := r.folderId, method := r.method,
    url := r.url, headers := h, body := r.body,
    createdAt := r.createdAt, updatedAt := r.updatedAt }

/-- `GetRequest`: point lookup (`sql.ErrNoRows` becomes
`fmt.Errorf("request not found")`), then the stored header text is
deserialized; a deserialization failure fails the whole call. -/
def GetRequest (id : Int) (s : Store) : Except DbErr RequestOut :=
  match findRequest id s with
  | none => .error (.notFound "request")
  | some r =>
    match deserializeHeaders r.headers with
    | .error e => .error e
    | .ok h => .ok (rowToRequestOut r h)

/-- `CreateRequest`: headers serialized, row inserted (timestamps default to
`CURRENT_TIMESTAMP`), `LastInsertId` written to the caller's record, then
re-read with `GetRequest`.  As with `CreateFolder`, the insert persists even
when the re-read fails (`readFault`). -/
def CreateRequest (now : Nat) (name : String) (folderId : Option Int)
    (method : String) (url : String) (headers : Option HeaderMap)
    (body : String) (readFault : Bool) (s : Store) :
    Except DbErr RequestOut × Int × Store :=
  let t := tick s now
  let row : RequestRow :=
    { id := s.nextRequestId, name := name, folderId := folderId,
      method := method, url := url, headers := serializeHeaders headers,
      body := body, createdAt := t, updatedAt := t }
  let s1 : Store :=
    { s with requests := s.requests ++ [row],
             nextRequestId := s.nextRequestId + 1, clock := t }
  if readFault then (.error (.storage "read failed"), row.id, s1)
  else (GetRequest row.id s1, row.id, s1)

/-- `GetRequests`: `SELECT ... ORDER BY updated_at DESC`, each row's headers
deserialized (the first failure aborts the call with a wrapped error), rows
appended to a `nil` slice. -/
def GetRequests (s : Store) : Except DbErr (Option (List RequestOut)) :=
  (s.requests.insertionSort (fun a b => b.updatedAt ≤ a.updatedAt)).foldl
    (fun acc r =>
      match acc with
      | .error e => .error e
      | .ok rows =>
        match deserializeHeaders r.headers with
        | .error _ => .error (.deserialize "failed to deserialize headers")
        | .ok h => .ok (some (rows.getD [] ++ [rowToRequestOut r h])))
    (.ok none)

/-- The row transformation of `updateRequestQuery`. -/
def applyRequestUpdate (id : Int) (name : String) (folderId : Option Int)
    (method : String) (url : String) (headersJSON : String) (body : String)
    (t : Nat) (r : RequestRow) : RequestRow :=
  if r.id == id then
    { r with name := name, folderId := folderId, method := method,
             url := url, headers := headersJSON, body := body, updatedAt := t }
  else r

/-- `UpdateRequest`: headers serialized, UPDATE run (refreshing only
`updated_at`), then `fmt.Errorf("request not found")` when `RowsAffected`
is zero. -/
def UpdateRequest (now : Nat) (id : Int) (name : String) (folderId : Option Int)
    (method : String) (url : String) (headers : Option HeaderMap)
    (body : String) (s : Store) : Except DbErr Unit × Store :=
  let t := tick s now
  let hj := serializeHeaders headers
  let affected := s.requests.countP (fun r => r.id == id)
  let rows := s.requests.map (applyRequestUpdate id name folderId method url hj body t)
  let s1 : Store := { s with requests := rows, clock := t }
  if affected == 0 then (.error (.notFound "request"), s1) else (.ok (), s1)

/-- `DeleteRequest`: `DELETE FROM requests WHERE id = ?`, then
`fmt.Errorf("request not found")` when `RowsAffected` is zero. -/
def DeleteRequest (id : Int) (s : Store) : Except DbErr Unit × Store :=
  let affected := s.requests.countP (fun r => r.id == id)
  let s1 : Store := { s with requests := s.requests.filter (fun r => !(r.id == id)) }
  if affected == 0 then (.error (.notFound "request"), s1) else (.ok (), s1)

/-! ## Proxy client (`internal/proxy/proxy.go`)

`ExecuteRequest` builds the outbound `http.Request`, applies each supplied
header with `Header.Set`, and defaults `Content-Type` to `application/json`
when the body is non-empty and `Header.Get("Content-Type")` is empty.  Only
this header-construction phase has internal semantics; the network round
trip itself is an external effect.  `http.Header.Set`/`Get` canonicalize the
key with `textproto.CanonicalMIMEHeaderKey`, modelled below.  The Go map
iteration order is unspecified, so the supplied mapping is taken as a list
of entries; the claims assume distinct canonical keys, which makes the
result independent of that order. -/

/-- `textproto.validHeaderFieldByte`: RFC 7230 token characters. -/
def validHeaderFieldByte (c : Char) : Bool :=
  let n := c.toNat
  (48 ≤ n && n ≤ 57) || (97 ≤ n && n ≤ 122) || (65 ≤ n && n ≤ 90) ||
  [33, 35, 36, 37, 38, 39, 42, 43, 45, 46, 94, 95, 96, 124, 126].contains n

/-- The canonicalization loop: upper-case the first letter and every letter
following a hyphen, lower-case the rest. -/
def canonChars : Bool → List Char → List Char
  | _, [] => []
  | upper, c :: cs =>
    let c2 := if upper then asciiUpper c else asciiLower c
    c2 :: canonChars (c2 == '-') cs

/-- `textproto.CanonicalMIMEHeaderKey`: the key is returned unchanged when
any byte is not a valid header-field byte. -/
def canonicalMIMEHeaderKey (s : String) : String :=
  if s.data.all validHeaderFieldByte then String.mk (canonChars true s.data) else s

/-- `http.Header.Set`: replace (or append) the single value stored under the
canonical key. -/
def setH (h : List (String × String)) (key value : String) : List (String × String) :=
  let ck := canonicalMIMEHeaderKey key
  if h.any (fun p => p.1 == ck) then
    h.map (fun p => if p.1 == ck then (ck, value) else p)
  else h ++ [(ck, value)]

/-- `http.Header.Get`: the value stored under the canonical key, or the
empty string when the key is absent. -/
def getH (h : List (String × String)) (key : String) : String :=
  match h.find? (fun p => p.1 == canonicalMIMEHeaderKey key) with
  | some p => p.2
  | none => ""

/-- The `for key, value := range req.Headers { httpReq.Header.Set(...) }`
loop, starting from the fresh request's empty header map. -/
def applyHeaders (entries : List (String × String)) : List (String × String) :=
  entries.foldl (fun acc p => setH acc p.1 p.2) []

/-- The header state of the outbound request built by `ExecuteRequest`:
every supplied entry applied with `Set`, then the `Content-Type`
defaulting rule. -/
def outboundHeaders (headers : List (String × String)) (body : String) :
    List (String × String) :=
  let h := applyHeaders headers
  if body ≠ "" ∧ getH h "Content-Type" = "" then
    setH h "Content-Type" "application/json"
  else h

/-- Go `strings.HasPrefix`, on the character level. -/
def goHasPrefix (s pre : String) : Bool :=
  pre.data.isPrefixOf s.data

/-- `ValidateURL`: empty check, then a literal case-sensitive scheme-prefix
check. -/
def ValidateURL (url : String) : Option String :=
  if url = "" then some "URL is required"
  else if !(goHasPrefix url "http://") && !(goHasPrefix url "https://") then
    some "URL must start with http:// or https://"
  else none

/-- The fixed method whitelist of `ValidateMethod`. -/
def validMethods : List String :=
  ["GET", "POST", "PUT", "DELETE", "PATCH", "HEAD", "OPTIONS"]

/-- `ValidateMethod`: the input is upper-cased, compared against the
whitelist, and on failure the error message embeds the upper-cased value
(`errors.New("invalid HTTP method: " + method)` runs after the
reassignment `method = strings.ToUpper(method)`). -/
def ValidateMethod (method : String) : Option String :=
  let m := goToUpper method
  if validMethods.contains m then none
  else some ("invalid HTTP method: " ++ m)

/-! ## HTTP adapter (`internal/server/server.go`)

Each handler is a function from its wire inputs and the store to a status
code, a response body shape, and (for mutating handlers) the new store.
`WireBody` distinguishes the two failure body shapes the repository builds:
`map[string]string\x7b"error": msg\x7d` (every `server.go` handler) and
`models.ErrorResponse` / `\x7bmessages: [...]\x7d` (the origin middleware). -/

/-- The inbound proxy wire shape. -/
structure ProxyRequest where
  method : String
  url : String
  headers : Option HeaderMap
  body : String
deriving Repr, DecidableEq

/-- The normalized proxy result (`models.Response`). -/
structure ProxyResponse where
  statusCode : Int
  headers : HeaderMap
  body : String
  duration : Int
deriving Repr, DecidableEq

/-- JSON bodies the server can respond with. -/
inductive WireBody where
  | errorObj (msg : String)
  | messagesObj (msgs : List String)
  | folderJson (f : FolderRow)
  | folderList (fs : List FolderRow)
  | requestJson (r : RequestOut)
  | requestList (rs : List RequestOut)
  | proxyJson (r : ProxyResponse)
  | empty
deriving Repr, DecidableEq

/-- `handleGetFolders`: a `nil` slice from the store is replaced by an empty
one before the 200 response (engine failures are outside the model). -/
def handleGetFolders (s : Store) : Nat × WireBody :=
  (200, .folderList ((GetFolders s).getD []))

/-- `handleGetRequests`: any storage failure maps to 500; a `nil` slice is
replaced by an empty one before the 200 response. -/
def handleGetRequests (s : Store) : Nat × WireBody :=
  match GetRequests s with
  | .error _ => (500, .errorObj "Failed to get requests")
  | .ok rows => (200, .requestList (rows.getD []))

/-- `handleGetFolderByID`: unparsable id maps to 400; any `GetFolder`
failure maps to 404. -/
def handleGetFolderByID (idParam : String) (s : Store) : Nat × WireBody :=
  match parseAtoi idParam with
  | none => (400, .errorObj "Invalid folder ID")
  | some id =>
    match GetFolder id s with
    | .error _ => (404, .errorObj "Folder not found")
    | .ok f => (200, .folderJson f)

/-- `handleUpdateFolderByID`: unparsable id maps to 400; any `UpdateFolder`
failure maps to 500; success echoes the bound record with the path id. -/
def handleUpdateFolderByID (now : Nat) (idParam : String) (bound : FolderRow)
    (s : Store) : (Nat × WireBody) × Store :=
  match parseAtoi idParam with
  | none => ((400, .errorObj "Invalid folder ID"), s)
  | some id =>
    match UpdateFolder now id bound.name bound.parentId s with
    | (.error _, s1) => ((500, .errorObj "Failed to update folder"), s1)
    | (.ok _, s1) => ((200, .folderJson { bound with id := id }), s1)

/-- `handleDeleteFolderByID`: unparsable id maps to 400; any `DeleteFolder`
failure maps to 500; success is 204 with no body. -/
def handleDeleteFolderByID (idParam : String) (s : Store) :
    (Nat × WireBody) × Store :=
  match parseAtoi idParam with
  | none => ((400, .errorObj "Invalid folder ID"), s)
  | some id =>
    match DeleteFolder id s with
    | (.error _, s1) => ((500, .errorObj "Failed to delete folder"), s1)
    | (.ok _, s1) => ((204, .empty), s1)

/-- `handleGetRequestByID`: unparsable id maps to 400; any `GetRequest`
failure maps to 404. -/
def handleGetRequestByID (idParam : String) (s : Store) : Nat × WireBody :=
  match parseAtoi idParam with
  | none => (400, .errorObj "Invalid request ID")
  | some id =>
    match GetRequest id s with
    | .error _ => (404, .errorObj "Request not found")
    | .ok r => (200, .requestJson r)

/-- `handleUpdateRequestByID`: unparsable id maps to 400; any
`UpdateRequest` failure maps to 500. -/
def handleUpdateRequestByID (now : Nat) (idParam : String) (bound : RequestOut)
    (s : Store) : (Nat × WireBody) × Store :=
  match parseAtoi idParam with
  | none => ((400, .errorObj "Invalid request ID"), s)
  | some id =>
    match UpdateRequest now id bound.name bound.folderId bound.method bound.url
        bound.headers bound.body s with
    | (.error _, s1) => ((500, .errorObj "Failed to update request"), s1)
    | (.ok _, s1) => ((200, .requestJson { bound with id := id }), s1)

/-- `handleDeleteRequestByID`: unparsable id maps to 400; any
`DeleteRequest` failure maps to 500; success is 204 with no body. -/
def handleDeleteRequestByID (idParam : String) (s : Store) :
    (Nat × WireBody) × Store :=
  match parseAtoi idParam with
  | none => ((400, .errorObj "Invalid request ID"), s)
  | some id =>
    match DeleteRequest id s with
    | (.error _, s1) => ((500, .errorObj "Failed to delete request"), s1)
    | (.ok _, s1) => ((204, .empty), s1)

/-- `handleProxyRequest` after a successful bind: URL validation failure
maps to 400, method validation failure to 400, a failed outbound call
(`execResult`, an external effect) to 500 with a wrapped message, and a
successful call to 200. -/
def handleProxyRequest (pr : ProxyRequest) (execResult : Except String ProxyResponse) :
    Nat × WireBody :=
  match ValidateURL pr.url with
  | some e => (400, .errorObj e)
  | none =>
    match ValidateMethod pr.method with
    | some e => (400, .errorObj e)
    | none =>
      match execResult with
      | .error e => (500, .errorObj ("Failed to execute request: " ++ e))
      | .ok r => (200, .proxyJson r)

/-! ## Mutation sequences over the store (for claim C7) -/

/-- The CRUD mutations of the persistence layer, tagged with the wall time
of the call. -/
inductive StoreOp where
  | createFolder (now : Nat) (name : String) (parentId : Option Int)
  | updateFolder (now : Nat) (id : Int) (name : String) (parentId : Option Int)
  | deleteFolder (id : Int)
  | createRequest (now : Nat) (name : String) (folderId : Option Int)
      (method url : String) (headers : Option HeaderMap) (body : String)
  | updateRequest (now : Nat) (id : Int) (name : String) (folderId : Option Int)
      (method url : String) (headers : Option HeaderMap) (body : String)
  | deleteRequest (id : Int)
deriving Repr, DecidableEq

/-- Effect of one mutation on the store (a failed mutation leaves the rows
it did not match unchanged; the engine read used by the create re-reads is
not faulted here). -/
def execOp (s : Store) : StoreOp → Store
  | .createFolder now name pid => (CreateFolder now name pid false s).2.2
  | .updateFolder now id name pid => (UpdateFolder now id name pid s).2
  | .deleteFolder id => (DeleteFolder id s).2
  | .createRequest now name fid m u h b =>
    (CreateRequest now name fid m u h b false s).2.2
  | .updateRequest now id name fid m u h b =>
    (UpdateRequest now id name fid m u h b s).2
  | .deleteRequest id => (DeleteRequest id s).2

/-- Effect of a call sequence. -/
def execOps (s : Store) (ops : List StoreOp) : Store :=
  ops.foldl execOp s

/-- Whether a mutation is one of the two update operations. -/
def isUpdateOp : StoreOp → Bool
  | .updateFolder _ _ _ _ => true
  | .updateRequest _ _ _ _ _ _ _ _ => true
  | _ => false

/-- The timestamp invariant: every row's `created_at` is at most its
`updated_at`, and no timestamp is ahead of the store clock. -/
def tsInv (s : Store) : Prop :=
  (∀ f ∈ s.folders, f.createdAt ≤ f.updatedAt ∧ f.updatedAt ≤ s.clock) ∧
  (∀ r ∈ s.requests, r.createdAt ≤ r.updatedAt ∧ r.updatedAt ≤ s.clock)

/-! ## Concrete fixtures used by the claim theorems -/

/-- A root folder with id 1. -/
def c1Parent : FolderRow :=
  { id := 1, name := "Parent", parentId := none, createdAt := 1, updatedAt := 1 }

/-- A child folder whose `parent_id` references folder 1. -/
def c1Child : FolderRow :=
  { id := 2, name := "Child", parentId := some 1, createdAt := 1, updatedAt := 1 }

/-- A stored request whose `folder_id` references folder 1. -/
def c1Req : RequestRow :=
  { id := 1, name := "R", folderId := some 1, method := "GET",
    url := "https://example.com", headers := serializeHeaders none, body := "",
    createdAt := 1, updatedAt := 1 }

/-- Store holding the folder pair and the referencing request. -/
def c1Store : Store :=
  { folders := [c1Parent, c1Child], requests := [c1Req],
    nextFolderId := 3, nextRequestId := 2, clock := 1 }

/-- An arbitrary bound folder body for update-handler calls. -/
def boundFolder : FolderRow :=
  { id := 0, name := "Ghost", parentId := none, createdAt := 0, updatedAt := 0 }

/-- An arbitrary bound request body for update-handler calls. -/
def boundRequest : RequestOut :=
  { id := 0, name := "Ghost", folderId := none, method := "GET",
    url := "https://ghost.example", headers := none, body := "",
    createdAt := 0, updatedAt := 0 }

/-! ## Shared lemmas -/

/-- Zero matching rows among the folders is the same as a failed point
lookup. -/
theorem countP_folders_eq_zero_iff (id : Int) (s : Store) :
    s.folders.countP (fun f => f.id == id) = 0 ↔ findFolder id s = none := by
  rw [List.countP_eq_zero, findFolder, List.find?_eq_none]

/-- Zero matching rows among the requests is the same as a failed point
lookup. -/
theorem countP_requests_eq_zero_iff (id : Int) (s : Store) :
    s.requests.countP (fun r => r.id == id) = 0 ↔ findRequest id s = none := by
  rw [List.countP_eq_zero, findRequest, List.find?_eq_none]

/-- The only deserialization failure is the `deserialize` kind. -/
theorem deserializeHeaders_error_shape (t : String) (e : DbErr)
    (h : deserializeHeaders t = .error e) : e = .deserialize "invalid JSON" := by
  unfold deserializeHeaders at h
  split at h
  · exact absurd h (by simp)
  · revert h; split <;> intro h <;> simp_all

/-! ## Claim C1: cascade deletion of folders

The schema declares `ON DELETE CASCADE` (folders) and `ON DELETE SET NULL`
(requests), but `InitDB` opens the connection without any `_foreign_keys`
DSN option, so SQLite runs with its default `PRAGMA foreign_keys = OFF` and
neither referential action ever fires: `DeleteFolder` removes exactly the
addressed row.  The claim (and the spec, and the schema's own DDL) say the
child folder is removed and the request's `folder_id` nulled; the code does
neither. -/

/-- Claim C1 (code bug): deleting folder 1 out of a parent-child pair with a
referencing request removes only folder 1: the child folder survives, still
pointing at the deleted parent, and the request keeps `folder_id = 1`. -/
theorem deleteFolder_runs_no_referential_actions :
    (DeleteFolder 1 c1Store).1 = .ok () ∧
    (DeleteFolder 1 c1Store).2.folders = [c1Child] ∧
    c1Child.parentId = some 1 ∧
    (DeleteFolder 1 c1Store).2.requests = [c1Req] ∧
    c1Req.folderId = some 1 := by
  decide

/-! ## Claim C9: ValidateMethod -/

/-- Claim C9 (counterexample): the failure message embeds the upper-cased
method, not the supplied value — `ValidateMethod` reassigns
`method = strings.ToUpper(method)` before building the error. -/
theorem validateMethod_message_uppercased :
    ValidateMethod "foo" = some "invalid HTTP method: FOO" ∧
    ValidateMethod "foo" ≠ some "invalid HTTP method: foo" := by
  decide

/-- Claim C9 (amended): `ValidateMethod` succeeds exactly when the
upper-cased input is in the fixed whitelist, and otherwise fails with the
message embedding the upper-cased supplied value. -/
theorem validateMethod_whitelist_spec (m : String) :
    (ValidateMethod m = none ↔ goToUpper m ∈ validMethods) ∧
    (goToUpper m ∉ validMethods →
      ValidateMethod m = some ("invalid HTTP method: " ++ goToUpper m)) := by
  unfold ValidateMethod
  by_cases hm : goToUpper m ∈ validMethods <;> simp [hm]

/-- Witness for the amended C9 at the concrete inputs `"get"` and `"foo"`. -/
theorem validateMethod_whitelist_spec_witness :
    ValidateMethod "get" = none ∧
    ValidateMethod "foo" = some ("invalid HTTP method: " ++ goToUpper "foo") := by
  refine ⟨(validateMethod_whitelist_spec "get").1.mpr (by decide),
    (validateMethod_whitelist_spec "foo").2 (by decide)⟩

/-! ## Claim C4: list operations on an empty store -/

/-- Claim C4 (counterexample): with zero rows, `GetFolders` and
`GetRequests` return the `nil` slice (`none`), which is the absent/null
collection, not the empty sequence (`some []`). -/
theorem listOps_return_nil_on_empty_store :
    GetFolders emptyStore = none ∧
    GetRequests emptyStore = .ok none ∧
    (none : Option (List FolderRow)) ≠ some [] := by
  decide

/-- Claim C4 (amended): on a store with zero rows the storage-layer list
operations return the `nil` collection; the HTTP adapter substitutes the
empty sequence before responding, so the wire response is `200` with an
empty list, never null. -/
theorem listOps_nil_substituted_by_adapter (s : Store) :
    (s.folders = [] →
      GetFolders s = none ∧ handleGetFolders s = (200, .folderList [])) ∧
    (s.requests = [] →
      GetRequests s = .ok none ∧ handleGetRequests s = (200, .requestList [])) := by
  constructor
  · intro hf
    have h1 : GetFolders s = none := by
      unfold GetFolders
      rw [hf]
      rfl
    exact ⟨h1, by unfold handleGetFolders; rw [h1]; rfl⟩
  · intro hr
    have h1 : GetRequests s = .ok none := by
      unfold GetRequests
      rw [hr]
      rfl
    exact ⟨h1, by unfold handleGetRequests; rw [h1]; rfl⟩

/-- Witness for the amended C4 at the freshly initialized store. -/
theorem listOps_nil_substituted_by_adapter_witness :
    (GetFolders emptyStore = none ∧
      handleGetFolders emptyStore = (200, .folderList [])) ∧
    (GetRequests emptyStore = .ok none ∧
      handleGetRequests emptyStore = (200, .requestList [])) :=
  ⟨(listOps_nil_substituted_by_adapter emptyStore).1 rfl,
   (listOps_nil_substituted_by_adapter emptyStore).2 rfl⟩

/-! ## Claim C2: status-code mapping of typed failures -/

/-- Claim C2 (counterexample): a mutation on a missing id — here each of the
four update/delete handlers called with id 9999 on the empty store — responds
500, not the claimed 404: the handlers map every storage failure of an
update or delete to 500 without inspecting its kind. -/
theorem update_delete_notFound_maps_to_500 :
    ((handleDeleteFolderByID "9999" emptyStore).1).1 = 500 ∧
    ((handleUpdateFolderByID 0 "9999" boundFolder emptyStore).1).1 = 500 ∧
    ((handleDeleteRequestByID "9999" emptyStore).1).1 = 500 ∧
    ((handleUpdateRequestByID 0 "9999" boundRequest emptyStore).1).1 = 500 ∧
    (500 : Nat) ≠ 404 := by
  decide

/-- Claim C2 (amended): the adapter maps failures per handler, not per error
kind — any failure of a point lookup responds 404, any storage failure of an
update or delete responds 500 (so a not-found on update/delete yields 500,
not 404), proxy validation failures respond 400, a failed outbound proxy
call responds 500 with a wrapped message, and a successful one responds
200. -/
theorem adapter_status_by_operation (s : Store) (p : String) (n : Int)
    (now : Nat) (bf : FolderRow) (br : RequestOut) (pr : ProxyRequest)
    (ex : Except String ProxyResponse) (e : String) (r : ProxyResponse) :
    (parseAtoi p = some n →
      (findFolder n s = none →
        (handleGetFolderByID p s).1 = 404 ∧
        ((handleUpdateFolderByID now p bf s).1).1 = 500 ∧
        ((handleDeleteFolderByID p s).1).1 = 500) ∧
      (findRequest n s = none →
        (handleGetRequestByID p s).1 = 404 ∧
        ((handleUpdateRequestByID now p br s).1).1 = 500 ∧
        ((handleDeleteRequestByID p s).1).1 = 500)) ∧
    (ValidateURL pr.url = some e → handleProxyRequest pr ex = (400, .errorObj e)) ∧
    (ValidateURL pr.url = none → ValidateMethod pr.method = some e →
      handleProxyRequest pr ex = (400, .errorObj e)) ∧
    (ValidateURL pr.url = none → ValidateMethod pr.method = none →
      handleProxyRequest pr (.error e) =
        (500, .errorObj ("Failed to execute request: " ++ e))) ∧
    (ValidateURL pr.url = none → ValidateMethod pr.method = none →
      handleProxyRequest pr (.ok r) = (200, .proxyJson r)) := by
  refine ⟨fun hp => ⟨fun hf => ?_, fun hr => ?_⟩, fun hu => ?_, fun hu hm => ?_,
    fun hu hm => ?_, fun hu hm => ?_⟩
  · have hc : s.folders.countP (fun f => f.id == n) = 0 :=
      (countP_folders_eq_zero_iff n s).mpr hf
    refine ⟨?_, ?_, ?_⟩
    · simp [handleGetFolderByID, hp, GetFolder, hf]
    · simp [handleUpdateFolderByID, hp, UpdateFolder, hc]
    · simp [handleDeleteFolderByID, hp, DeleteFolder, hc]
  · have hc : s.requests.countP (fun rr => rr.id == n) = 0 :=
      (countP_requests_eq_zero_iff n s).mpr hr
    refine ⟨?_, ?_, ?_⟩
    · simp [handleGetRequestByID, hp, GetRequest, hr]
    · simp [handleUpdateRequestByID, hp, UpdateRequest, hc]
    · simp [handleDeleteRequestByID, hp, DeleteRequest, hc]
  · simp [handleProxyRequest, hu]
  · simp [handleProxyRequest, hu, hm]
  · simp [handleProxyRequest, hu, hm]
  · simp [handleProxyRequest, hu, hm]

/-- Witness for the amended C2 at concrete inputs: id 9999 on the empty
store, and a proxy request with an invalid URL. -/
theorem adapter_status_by_operation_witness :
    ((handleGetFolderByID "9999" emptyStore).1 = 404 ∧
      ((handleUpdateFolderByID 0 "9999" boundFolder emptyStore).1).1 = 500 ∧
      ((handleDeleteFolderByID "9999" emptyStore).1).1 = 500) ∧
    handleProxyRequest
      { method := "GET", url := "ftp://x", headers := none, body := "" }
      (.error "boom") = (400, .errorObj "URL must start with http:// or https://") :=
  ⟨((adapter_status_by_operation emptyStore "9999" 9999 0 boundFolder boundRequest
      { method := "GET", url := "ftp://x", headers := none, body := "" }
      (.error "boom") "URL must start with http:// or https://"
      { statusCode := 200, headers := [], body := "", duration := 1 }).1
        (by decide)).1 (by decide),
   ((adapter_status_by_operation emptyStore "9999" 9999 0 boundFolder boundRequest
      { method := "GET", url := "ftp://x", headers := none, body := "" }
      (.error "boom") "URL must start with http:// or https://"
      { statusCode := 200, headers := [], body := "", duration := 1 }).2.1
        (by decide))⟩

/-! ## Claim C3: failure wire shape -/

/-- Claim C3 (code bug): the failing responses of the server handlers are
single-field objects `\x7b"error": msg\x7d`, not the `\x7bmessages:
[...]\x7d` shape of `models.ErrorResponse` that the spec prescribes and the
repository's own `TestErrorResponses` / `TestHandleProxyRequest` assert
(those tests decode the body into `models.ErrorResponse` and require a
non-empty `Messages`). -/
theorem failure_body_is_error_object_not_messages :
    handleGetFolderByID "9999" emptyStore = (404, .errorObj "Folder not found") ∧
    handleProxyRequest { method := "GET", url := "", headers := none, body := "" }
      (.error "unused") = (400, .errorObj "URL is required") ∧
    ((handleDeleteFolderByID "9999" emptyStore).1).2 =
      .errorObj "Failed to delete folder" ∧
    ∀ msgs, WireBody.errorObj "Folder not found" ≠ WireBody.messagesObj msgs := by
  refine ⟨by decide, by decide, by decide, fun msgs h => ?_⟩
  exact WireBody.noConfusion h

/-! ## Claim C10: creation is not atomic with its returned error -/

/-- Claim C10: once the INSERT of `CreateFolder`/`CreateRequest` succeeds,
the new row is in the store and the caller's record carries the
server-assigned id, even when the follow-up re-read fails (`fault`) and the
call returns an error — an error return does not imply the store is
unchanged. -/
theorem create_insert_persists_despite_read_failure (s : Store) (now : Nat)
    (fname : String) (pid : Option Int) (fault : Bool) (rname : String)
    (fid : Option Int) (method url body : String) (h : Option HeaderMap) :
    ((CreateFolder now fname pid fault s).2.2.folders =
      s.folders ++ [⟨s.nextFolderId, fname, pid, tick s now, tick s now⟩]) ∧
    ((CreateFolder now fname pid fault s).2.1 = s.nextFolderId) ∧
    (fault = true →
      (CreateFolder now fname pid fault s).1 = .error (.storage "read failed") ∧
      (CreateFolder now fname pid fault s).2.2 ≠ s) ∧
    ((CreateRequest now rname fid method url h body fault s).2.2.requests =
      s.requests ++ [⟨s.nextRequestId, rname, fid, method, url,
        serializeHeaders h, body, tick s now, tick s now⟩]) ∧
    ((CreateRequest now rname fid method url h body fault s).2.1 =
      s.nextRequestId) ∧
    (fault = true →
      (CreateRequest now rname fid method url h body fault s).1 =
        .error (.storage "read failed") ∧
      (CreateRequest now rname fid method url h body fault s).2.2 ≠ s) := by
  refine ⟨?_, ?_, fun hf => ⟨?_, ?_⟩, ?_, ?_, fun hf => ⟨?_, ?_⟩⟩
  · cases fault <;> simp [CreateFolder, GetFolder]
  · cases fault <;> simp [CreateFolder, GetFolder]
  · subst hf
    simp [CreateFolder]
  · subst hf
    intro heq
    have hlen := congrArg (fun st => st.folders.length) heq
    simp [CreateFolder] at hlen
  · cases fault <;> simp [CreateRequest, GetRequest]
  · cases fault <;> simp [CreateRequest, GetRequest]
  · subst hf
    simp [CreateRequest]
  · subst hf
    intro heq
    have hlen := congrArg (fun st => st.requests.length) heq
    simp [CreateRequest] at hlen

/-- Witness for C10 with an injected read failure on the empty store. -/
theorem create_insert_persists_despite_read_failure_witness :
    (CreateFolder 1 "Test" none true emptyStore).1 =
      .error (.storage "read failed") ∧
    (CreateFolder 1 "Test" none true emptyStore).2.2 ≠ emptyStore :=
  ((create_insert_persists_despite_read_failure emptyStore 1 "Test" none true
    "R" none "GET" "https://example.com" "" none).2.2.1) rfl

/-! ## Claim C6: not-found exactly on absent rows, as the distinguished kind -/

/-- Claim C6: point lookups fail with the distinguished not-found error
exactly when no row matches the id, and the mutations fail with it exactly
when the affected-row count is zero, which in turn happens exactly when no
row matches. -/
theorem notFound_exactly_when_row_absent (s : Store) (id : Int) (now : Nat)
    (fname : String) (pid : Option Int) (rname : String) (fid : Option Int)
    (method url body : String) (h : Option HeaderMap) :
    (GetFolder id s = .error (.notFound "folder") ↔ findFolder id s = none) ∧
    (GetRequest id s = .error (.notFound "request") ↔ findRequest id s = none) ∧
    ((UpdateFolder now id fname pid s).1 = .error (.notFound "folder") ↔
      s.folders.countP (fun f => f.id == id) = 0) ∧
    ((DeleteFolder id s).1 = .error (.notFound "folder") ↔
      s.folders.countP (fun f => f.id == id) = 0) ∧
    ((UpdateRequest now id rname fid method url h body s).1 =
        .error (.notFound "request") ↔
      s.requests.countP (fun r => r.id == id) = 0) ∧
    ((DeleteRequest id s).1 = .error (.notFound "request") ↔
      s.requests.countP (fun r => r.id == id) = 0) ∧
    (s.folders.countP (fun f => f.id == id) = 0 ↔ findFolder id s = none) ∧
    (s.requests.countP (fun r => r.id == id) = 0 ↔ findRequest id s = none) ∧
    (∀ e, GetFolder id s = .error e → e = .notFound "folder") := by
  refine ⟨?_, ?_, ?_, ?_, ?_, ?_, countP_folders_eq_zero_iff id s,
    countP_requests_eq_zero_iff id s, ?_⟩
  · unfold GetFolder
    cases hf : findFolder id s <;> simp
  · cases hr : findRequest id s with
    | none => simp [GetRequest, hr]
    | some row =>
      cases hd : deserializeHeaders row.headers with
      | error e =>
        have he := deserializeHeaders_error_shape row.headers e hd
        subst he
        simp [GetRequest, hr, hd]
      | ok hm2 => simp [GetRequest, hr, hd]
  · by_cases hc : s.folders.countP (fun f => f.id == id) = 0 <;>
      simp [UpdateFolder, hc]
  · by_cases hc : s.folders.countP (fun f => f.id == id) = 0 <;>
      simp [DeleteFolder, hc]
  · by_cases hc : s.requests.countP (fun r => r.id == id) = 0 <;>
      simp [UpdateRequest, hc]
  · by_cases hc : s.requests.countP (fun r => r.id == id) = 0 <;>
      simp [DeleteRequest, hc]
  · unfold GetFolder
    cases hf : findFolder id s <;> simp

/-! ## Lemmas about header application (for claim C8) -/

/-- Replacing the value stored under a present key makes the lookup of that
key return the new value. -/
theorem find?_map_replace (ck : String) (v : String) :
    ∀ h : List (String × String), h.any (fun p => p.1 == ck) = true →
      (h.map (fun p => if p.1 == ck then (ck, v) else p)).find?
        (fun p => p.1 == ck) = some (ck, v)
  | [], hany => by simp at hany
  | p :: t, hany => by
    rw [List.map_cons]
    by_cases hp : (p.1 == ck) = true
    · rw [if_pos hp]
      exact List.find?_cons_of_pos (p := fun (q : String × String) => q.1 == ck) _ (by simp)
    · have hp2 : (p.1 == ck) = false := by simpa using hp
      have ht : t.any (fun q => q.1 == ck) = true := by
        rw [List.any_cons, hp2] at hany
        simpa using hany
      rw [if_neg hp, List.find?_cons_of_neg (p := fun (q : String × String) => q.1 == ck) _ hp]
      exact find?_map_replace ck v t ht

/-- Appending a binding for an absent key makes the lookup of that key
return it. -/
theorem find?_append_new (ck : String) (v : String) :
    ∀ h : List (String × String), h.any (fun p => p.1 == ck) = false →
      (h ++ [(ck, v)]).find? (fun p => p.1 == ck) = some (ck, v)
  | [], _ => by
    rw [List.nil_append]
    exact List.find?_cons_of_pos (p := fun (q : String × String) => q.1 == ck) _ (by simp)
  | p :: t, hany => by
    rw [List.any_cons] at hany
    have hp : (p.1 == ck) = false := by
      cases hb : (p.1 == ck) <;> simp [hb] at hany ⊢
    have ht : t.any (fun q => q.1 == ck) = false := by
      cases hb : t.any (fun q => q.1 == ck) <;> simp [hb, hp] at hany ⊢
    rw [List.cons_append,
      List.find?_cons_of_neg (p := fun (q : String × String) => q.1 == ck) _ (by simp [hp])]
    exact find?_append_new ck v t ht

/-- Replacing the value under key `ck` does not change lookups of a
different key. -/
theorem find?_map_replace_other (ck ck2 : String) (v : String)
    (hne : ck2 ≠ ck) :
    ∀ h : List (String × String),
      (h.map (fun p => if p.1 == ck then (ck, v) else p)).find?
        (fun p => p.1 == ck2) = h.find? (fun p => p.1 == ck2)
  | [] => rfl
  | p :: t => by
    rw [List.map_cons]
    by_cases hp : (p.1 == ck) = true
    · have hck : p.1 = ck := by simpa using hp
      have hp2 : (p.1 == ck2) = false := by
        rw [hck]
        simp
        exact fun hc => hne hc.symm
      have hck2 : ((ck, v).1 == ck2) = false := by
        simp
        exact fun hc => hne hc.symm
      rw [if_pos hp,
        List.find?_cons_of_neg (p := fun (q : String × String) => q.1 == ck2) _ (by simp [hck2]),
        List.find?_cons_of_neg (p := fun (q : String × String) => q.1 == ck2) _ (by simp [hp2])]
      exact find?_map_replace_other ck ck2 v hne t
    · rw [if_neg hp]
      by_cases hq : (p.1 == ck2) = true
      · rw [List.find?_cons_of_pos (p := fun (q : String × String) => q.1 == ck2) _ hq,
          List.find?_cons_of_pos (p := fun (q : String × String) => q.1 == ck2) _ hq]
      · rw [List.find?_cons_of_neg (p := fun (q : String × String) => q.1 == ck2) _ hq,
          List.find?_cons_of_neg (p := fun (q : String × String) => q.1 == ck2) _ hq]
        exact find?_map_replace_other ck ck2 v hne t

/-- Appending a binding for key `ck` does not change lookups of a different
key. -/
theorem find?_append_other (ck ck2 : String) (v : String) (hne : ck2 ≠ ck) :
    ∀ h : List (String × String),
      (h ++ [(ck, v)]).find? (fun p => p.1 == ck2) =
        h.find? (fun p => p.1 == ck2)
  | [] => by
    rw [List.nil_append,
      List.find?_cons_of_neg (p := fun (q : String × String) => q.1 == ck2) _
        (by simp; exact fun hc => hne hc.symm)]
  | p :: t => by
    rw [List.cons_append]
    by_cases hq : (p.1 == ck2) = true
    · rw [List.find?_cons_of_pos (p := fun (q : String × String) => q.1 == ck2) _ hq,
        List.find?_cons_of_pos (p := fun (q : String × String) => q.1 == ck2) _ hq]
    · rw [List.find?_cons_of_neg (p := fun (q : String × String) => q.1 == ck2) _ hq,
        List.find?_cons_of_neg (p := fun (q : String × String) => q.1 == ck2) _ hq]
      exact find?_append_other ck ck2 v hne t

/-- `Header.Get` after `Header.Set` of a key with the same canonical form
returns the set value. -/
theorem getH_setH_same (h : List (String × String)) (k k2 v : String)
    (he : canonicalMIMEHeaderKey k2 = canonicalMIMEHeaderKey k) :
    getH (setH h k v) k2 = v := by
  unfold setH
  cases ha : h.any (fun p => p.1 == canonicalMIMEHeaderKey k)
  · rw [if_neg (by rw [ha]; exact Bool.false_ne_true)]
    unfold getH
    rw [he, find?_append_new _ _ _ ha]
  · rw [if_pos ha]
    unfold getH
    rw [he, find?_map_replace _ _ _ ha]

/-- `Header.Get` after `Header.Set` of a key with a different canonical form
is unchanged. -/
theorem getH_setH_other (h : List (String × String)) (k k2 v : String)
    (hne : canonicalMIMEHeaderKey k2 ≠ canonicalMIMEHeaderKey k) :
    getH (setH h k v) k2 = getH h k2 := by
  unfold setH
  cases ha : h.any (fun p => p.1 == canonicalMIMEHeaderKey k)
  · rw [if_neg (by rw [ha]; exact Bool.false_ne_true)]
    unfold getH
    rw [find?_append_other _ _ _ hne]
  · rw [if_pos ha]
    unfold getH
    rw [find?_map_replace_other _ _ _ hne]

/-- Lookups only depend on the canonical form of the key. -/
theorem getH_congr (h : List (String × String)) (k1 k2 : String)
    (he : canonicalMIMEHeaderKey k1 = canonicalMIMEHeaderKey k2) :
    getH h k1 = getH h k2 := by
  unfold getH
  rw [he]

/-- Folding `Set` over entries none of which touch the canonical form of
`k` leaves the lookup of `k` unchanged. -/
theorem foldl_setH_absent :
    ∀ (entries : List (String × String)) (acc : List (String × String))
      (k : String),
      (∀ p ∈ entries, canonicalMIMEHeaderKey p.1 ≠ canonicalMIMEHeaderKey k) →
      getH (entries.foldl (fun a p => setH a p.1 p.2) acc) k = getH acc k
  | [], _, _, _ => rfl
  | e :: rest, acc, k, habs => by
    have h1 := foldl_setH_absent rest (setH acc e.1 e.2) k
      (fun p hp => habs p (List.mem_cons_of_mem e hp))
    rw [List.foldl_cons, h1, getH_setH_other]
    exact fun hc => habs e (List.mem_cons_self e rest) hc.symm

/-- Folding `Set` over entries with pairwise-distinct canonical keys makes
the lookup of each entry's key return that entry's value. -/
theorem foldl_setH_mem :
    ∀ (entries : List (String × String)) (acc : List (String × String))
      (k v : String),
      (entries.map (fun p => canonicalMIMEHeaderKey p.1)).Nodup →
      (k, v) ∈ entries →
      getH (entries.foldl (fun a p => setH a p.1 p.2) acc) k = v
  | [], _, _, _, _, hmem => absurd hmem (List.not_mem_nil _)
  | e :: rest, acc, k, v, hnd, hmem => by
    rcases List.mem_cons.mp hmem with heq | hmem2
    · subst heq
      have habs : ∀ p ∈ rest,
          canonicalMIMEHeaderKey p.1 ≠ canonicalMIMEHeaderKey k := by
        intro p hp hc
        have := (List.nodup_cons.mp hnd).1
        exact this (by
          simpa [hc] using List.mem_map_of_mem
            (fun q => canonicalMIMEHeaderKey q.1) hp)
      rw [List.foldl_cons, foldl_setH_absent rest _ k habs,
        getH_setH_same _ _ _ _ rfl]
    · exact foldl_setH_mem rest (setH acc e.1 e.2) k v
        (List.nodup_cons.mp hnd).2 hmem2

/-! ## Claim C8: outbound header construction -/

/-- Claim C8 (counterexample): a supplied Content-Type entry with the empty
value does not survive to the outbound request when the body is non-empty —
`Header.Get("Content-Type")` returns the empty string for it, so the
defaulting rule overwrites the applied entry with `application/json`. -/
theorem contentType_empty_value_overwritten :
    outboundHeaders [("Content-Type", "")] "a" =
      [("Content-Type", "application/json")] ∧
    getH (outboundHeaders [("Content-Type", "")] "a") "Content-Type" ≠ "" := by
  decide

/-- Claim C8 (amended): every supplied entry is applied with `Header.Set`
and survives to the outbound request with its value, except that an entry
whose canonical key is Content-Type and whose value is empty is overwritten
by the `application/json` default when the body is non-empty; whenever the
body is non-empty and no supplied entry has canonical key Content-Type, the
outbound request carries `Content-Type: application/json`; when the body is
empty the header phase is exactly the application of the supplied entries
and no default is added. -/
theorem outboundHeaders_spec (entries : List (String × String)) (body : String) :
    ((entries.map (fun p => canonicalMIMEHeaderKey p.1)).Nodup →
      ∀ k v, (k, v) ∈ entries →
        (canonicalMIMEHeaderKey k = "Content-Type" → v ≠ "" ∨ body = "") →
        getH (outboundHeaders entries body) k = v) ∧
    (body ≠ "" →
      (∀ p ∈ entries, canonicalMIMEHeaderKey p.1 ≠ "Content-Type") →
      getH (outboundHeaders entries body) "Content-Type" = "application/json") ∧
    (body = "" → outboundHeaders entries body = applyHeaders entries) ∧
    (body = "" →
      (∀ p ∈ entries, canonicalMIMEHeaderKey p.1 ≠ "Content-Type") →
      getH (outboundHeaders entries body) "Content-Type" = "") := by
  have hctk : canonicalMIMEHeaderKey "Content-Type" = "Content-Type" := by decide
  refine ⟨fun hnd k v hmem hct => ?_, fun hb habs => ?_, fun hb => ?_,
    fun hb habs => ?_⟩
  · by_cases hcond : body ≠ "" ∧ getH (applyHeaders entries) "Content-Type" = ""
    · by_cases hk : canonicalMIMEHeaderKey k = "Content-Type"
      · exfalso
        have hv : getH (applyHeaders entries) k = v :=
          foldl_setH_mem entries [] k v hnd hmem
        have hv2 : getH (applyHeaders entries) k = "" := by
          rw [getH_congr _ k "Content-Type" (by rw [hk, hctk])]
          exact hcond.2
        rcases hct hk with hne | hbe
        · exact hne (hv2 ▸ hv.symm)
        · exact hcond.1 hbe
      · unfold outboundHeaders
        rw [if_pos hcond, getH_setH_other]
        · exact foldl_setH_mem entries [] k v hnd hmem
        · rw [hctk]
          exact hk
    · unfold outboundHeaders
      rw [if_neg hcond]
      exact foldl_setH_mem entries [] k v hnd hmem
  · have habs2 : ∀ p ∈ entries,
        canonicalMIMEHeaderKey p.1 ≠ canonicalMIMEHeaderKey "Content-Type" := by
      intro p hp
      rw [hctk]
      exact habs p hp
    have hempty : getH (applyHeaders entries) "Content-Type" = "" :=
      foldl_setH_absent entries [] "Content-Type" habs2
    unfold outboundHeaders
    rw [if_pos ⟨hb, hempty⟩, getH_setH_same _ _ _ _ rfl]
  · unfold outboundHeaders
    rw [if_neg (by simp [hb])]
  · have habs2 : ∀ p ∈ entries,
        canonicalMIMEHeaderKey p.1 ≠ canonicalMIMEHeaderKey "Content-Type" := by
      intro p hp
      rw [hctk]
      exact habs p hp
    unfold outboundHeaders
    rw [if_neg (by simp [hb])]
    exact foldl_setH_absent entries [] "Content-Type" habs2

/-- Witness for the amended C8: a non-Content-Type entry survives, and a
non-empty body with no Content-Type entry gets the default. -/
theorem outboundHeaders_spec_witness :
    getH (outboundHeaders [("accept", "text/html")] "x") "accept" = "text/html" ∧
    getH (outboundHeaders [("accept", "text/html")] "x") "Content-Type" =
      "application/json" ∧
    outboundHeaders [("accept", "text/html")] "" =
      applyHeaders [("accept", "text/html")] :=
  ⟨(outboundHeaders_spec [("accept", "text/html")] "x").1 (by decide)
      "accept" "text/html" (by decide) (fun hc => absurd hc (by decide)),
   (outboundHeaders_spec [("accept", "text/html")] "x").2.1 (by decide)
      (by decide),
   (outboundHeaders_spec [("accept", "text/html")] "").2.2.1 rfl⟩

/-! ## Lemmas about mutation sequences (for claim C7) -/

/-- Evaluation of the create-folder mutation. -/
theorem execOp_createFolder_eq (s : Store) (now : Nat) (name : String)
    (pid : Option Int) :
    execOp s (.createFolder now name pid) =
      { s with
        folders := s.folders ++
          [⟨s.nextFolderId, name, pid, tick s now, tick s now⟩],
        nextFolderId := s.nextFolderId + 1, clock := tick s now } := by
  simp [execOp, CreateFolder]

/-- Evaluation of the update-folder mutation (the post-state is the same on
the hit and the zero-rows paths). -/
theorem execOp_updateFolder_eq (s : Store) (now : Nat) (id : Int)
    (name : String) (pid : Option Int) :
    execOp s (.updateFolder now id name pid) =
      { s with
        folders := s.folders.map (applyFolderUpdate id name pid (tick s now)),
        clock := tick s now } := by
  simp only [execOp, UpdateFolder]
  split <;> rfl

/-- Evaluation of the delete-folder mutation. -/
theorem execOp_deleteFolder_eq (s : Store) (id : Int) :
    execOp s (.deleteFolder id) =
      { s with folders := s.folders.filter (fun f => !(f.id == id)) } := by
  simp only [execOp, DeleteFolder]
  split <;> rfl

/-- Evaluation of the create-request mutation. -/
theorem execOp_createRequest_eq (s : Store) (now : Nat) (name : String)
    (fid : Option Int) (m u : String) (h : Option HeaderMap) (b : String) :
    execOp s (.createRequest now name fid m u h b) =
      { s with
        requests := s.requests ++
          [⟨s.nextRequestId, name, fid, m, u, serializeHeaders h, b,
            tick s now, tick s now⟩],
        nextRequestId := s.nextRequestId + 1, clock := tick s now } := by
  simp [execOp, CreateRequest]

/-- Evaluation of the update-request mutation. -/
theorem execOp_updateRequest_eq (s : Store) (now : Nat) (id : Int)
    (name : String) (fid : Option Int) (m u : String) (h : Option HeaderMap)
    (b : String) :
    execOp s (.updateRequest now id name fid m u h b) =
      { s with
        requests := s.requests.map
          (applyRequestUpdate id name fid m u (serializeHeaders h) b
            (tick s now)),
        clock := tick s now } := by
  simp only [execOp, UpdateRequest]
  split <;> rfl

/-- Evaluation of the delete-request mutation. -/
theorem execOp_deleteRequest_eq (s : Store) (id : Int) :
    execOp s (.deleteRequest id) =
      { s with requests := s.requests.filter (fun r => !(r.id == id)) } := by
  simp only [execOp, DeleteRequest]
  split <;> rfl

/-- Every single mutation preserves the timestamp invariant: the clock never
goes backwards, creations stamp both fields with the current time, and
updates refresh `updated_at` to the current time. -/
theorem tsInv_execOp (s : Store) (op : StoreOp) (h : tsInv s) :
    tsInv (execOp s op) := by
  cases op with
  | createFolder now name pid =>
    rw [execOp_createFolder_eq]
    refine ⟨fun f hf => ?_, fun r hr => ?_⟩
    · rcases List.mem_append.mp hf with h1 | h2
      · exact ⟨(h.1 f h1).1, (h.1 f h1).2.trans (le_max_left _ _)⟩
      · rw [List.mem_singleton.mp h2]
        exact ⟨le_rfl, le_rfl⟩
    · exact ⟨(h.2 r hr).1, (h.2 r hr).2.trans (le_max_left _ _)⟩
  | updateFolder now id name pid =>
    rw [execOp_updateFolder_eq]
    refine ⟨fun f hf => ?_, fun r hr => ?_⟩
    · rcases List.mem_map.mp hf with ⟨g, hg, rfl⟩
      unfold applyFolderUpdate
      split
      · exact ⟨((h.1 g hg).1.trans (h.1 g hg).2).trans (le_max_left _ _), le_rfl⟩
      · exact ⟨(h.1 g hg).1, (h.1 g hg).2.trans (le_max_left _ _)⟩
    · exact ⟨(h.2 r hr).1, (h.2 r hr).2.trans (le_max_left _ _)⟩
  | deleteFolder id =>
    rw [execOp_deleteFolder_eq]
    refine ⟨fun f hf => ?_, fun r hr => ?_⟩
    · exact h.1 f (List.mem_of_mem_filter hf)
    · exact h.2 r hr
  | createRequest now name fid m u hh b =>
    rw [execOp_createRequest_eq]
    refine ⟨fun f hf => ?_, fun r hr => ?_⟩
    · exact ⟨(h.1 f hf).1, (h.1 f hf).2.trans (le_max_left _ _)⟩
    · rcases List.mem_append.mp hr with h1 | h2
      · exact ⟨(h.2 r h1).1, (h.2 r h1).2.trans (le_max_left _ _)⟩
      · rw [List.mem_singleton.mp h2]
        exact ⟨le_rfl, le_rfl⟩
  | updateRequest now id name fid m u hh b =>
    rw [execOp_updateRequest_eq]
    refine ⟨fun f hf => ?_, fun r hr => ?_⟩
    · exact ⟨(h.1 f hf).1, (h.1 f hf).2.trans (le_max_left _ _)⟩
    · rcases List.mem_map.mp hr with ⟨g, hg, rfl⟩
      unfold applyRequestUpdate
      split
      · exact ⟨((h.2 g hg).1.trans (h.2 g hg).2).trans (le_max_left _ _), le_rfl⟩
      · exact ⟨(h.2 g hg).1, (h.2 g hg).2.trans (le_max_left _ _)⟩
  | deleteRequest id =>
    rw [execOp_deleteRequest_eq]
    refine ⟨fun f hf => ?_, fun r hr => ?_⟩
    · exact h.1 f hf
    · exact h.2 r (List.mem_of_mem_filter hr)

/-- The timestamp invariant holds along every call sequence. -/
theorem tsInv_execOps :
    ∀ (ops : List StoreOp) (s : Store), tsInv s → tsInv (execOps s ops)
  | [], _, h => h
  | op :: rest, s, h =>
    tsInv_execOps rest (execOp s op) (tsInv_execOp s op h)

/-- The fresh store satisfies the timestamp invariant. -/
theorem tsInv_emptyStore : tsInv emptyStore :=
  ⟨fun f hf => absurd hf (List.not_mem_nil f),
   fun r hr => absurd hr (List.not_mem_nil r)⟩

/-- The folder UPDATE keeps every row's id and `created_at`. -/
theorem map_pair_applyFolderUpdate (id : Int) (name : String)
    (pid : Option Int) (t : Nat) :
    ∀ l : List FolderRow,
      (l.map (applyFolderUpdate id name pid t)).map
          (fun f => (f.id, f.createdAt)) =
        l.map (fun f => (f.id, f.createdAt))
  | [] => rfl
  | f :: tl => by
    rw [List.map_cons, List.map_cons, List.map_cons]
    congr 1
    · unfold applyFolderUpdate
      split <;> rfl
    · exact map_pair_applyFolderUpdate id name pid t tl

/-- The request UPDATE keeps every row's id and `created_at`. -/
theorem map_pair_applyRequestUpdate (id : Int) (name : String)
    (fid : Option Int) (m u hj b : String) (t : Nat) :
    ∀ l : List RequestRow,
      (l.map (applyRequestUpdate id name fid m u hj b t)).map
          (fun r => (r.id, r.createdAt)) =
        l.map (fun r => (r.id, r.createdAt))
  | [] => rfl
  | r :: tl => by
    rw [List.map_cons, List.map_cons, List.map_cons]
    congr 1
    · unfold applyRequestUpdate
      split <;> rfl
    · exact map_pair_applyRequestUpdate id name fid m u hj b t tl

/-- A sequence of update calls keeps every row's id and `created_at` (on
both tables). -/
theorem frame_of_updates :
    ∀ (us : List StoreOp) (s : Store), us.all isUpdateOp = true →
      (execOps s us).folders.map (fun f => (f.id, f.createdAt)) =
        s.folders.map (fun f => (f.id, f.createdAt)) ∧
      (execOps s us).requests.map (fun r => (r.id, r.createdAt)) =
        s.requests.map (fun r => (r.id, r.createdAt))
  | [], _, _ => ⟨rfl, rfl⟩
  | op :: rest, s, hall => by
    rw [List.all_cons] at hall
    have hop : isUpdateOp op = true := by
      cases hb : isUpdateOp op <;> simp [hb] at hall ⊢
    have hrest : rest.all isUpdateOp = true := by
      cases hb : rest.all isUpdateOp <;> simp [hb, hop] at hall ⊢
    have step : execOps s (op :: rest) = execOps (execOp s op) rest := rfl
    cases op with
    | updateFolder now id name pid =>
      have ih := frame_of_updates rest (execOp s (.updateFolder now id name pid)) hrest
      rw [step]
      refine ⟨?_, ?_⟩
      · rw [ih.1, execOp_updateFolder_eq]
        exact map_pair_applyFolderUpdate id name pid (tick s now) s.folders
      · rw [ih.2, execOp_updateFolder_eq]
    | updateRequest now id name fid m u hh b =>
      have ih := frame_of_updates rest
        (execOp s (.updateRequest now id name fid m u hh b)) hrest
      rw [step]
      refine ⟨?_, ?_⟩
      · rw [ih.1, execOp_updateRequest_eq]
      · rw [ih.2, execOp_updateRequest_eq]
        exact map_pair_applyRequestUpdate id name fid m u (serializeHeaders hh)
          b (tick s now) s.requests
    | createFolder now name pid => simp [isUpdateOp] at hop
    | deleteFolder id => simp [isUpdateOp] at hop
    | createRequest now name fid m u hh b => simp [isUpdateOp] at hop
    | deleteRequest id => simp [isUpdateOp] at hop

/-! ## Claim C7: created_at is at most updated_at and survives updates -/

/-- Claim C7: along every call sequence from the fresh store, every folder
and request row satisfies `created_at ≤ updated_at`; and any sequence of
successful or unsuccessful update calls leaves every row's id and
`created_at` exactly as they were — updates refresh only `updated_at`. -/
theorem timestamps_ordered_and_created_immutable (ops : List StoreOp)
    (s : Store) (us : List StoreOp) :
    (∀ f ∈ (execOps emptyStore ops).folders, f.createdAt ≤ f.updatedAt) ∧
    (∀ r ∈ (execOps emptyStore ops).requests, r.createdAt ≤ r.updatedAt) ∧
    (us.all isUpdateOp = true →
      (execOps s us).folders.map (fun f => (f.id, f.createdAt)) =
        s.folders.map (fun f => (f.id, f.createdAt)) ∧
      (execOps s us).requests.map (fun r => (r.id, r.createdAt)) =
        s.requests.map (fun r => (r.id, r.createdAt))) := by
  have hinv := tsInv_execOps ops emptyStore tsInv_emptyStore
  exact ⟨fun f hf => (hinv.1 f hf).1, fun r hr => (hinv.2 r hr).1,
    fun hall => frame_of_updates us s hall⟩

/-- Witness for C7: create a folder at time 1, rename it at time 5; the
invariant holds on the result and the update sequence preserves id and
`created_at`. -/
theorem timestamps_ordered_and_created_immutable_witness :
    (∀ f ∈ (execOps emptyStore
        [.createFolder 1 "Test" none, .updateFolder 5 1 "Renamed" none]).folders,
      f.createdAt ≤ f.updatedAt) ∧
    (execOps
        { folders := [⟨1, "Test", none, 1, 1⟩], requests := [],
          nextFolderId := 2, nextRequestId := 1, clock := 1 }
        [.updateFolder 5 1 "Renamed" none]).folders.map
        (fun f => (f.id, f.createdAt)) =
      [(1, 1)] :=
  ⟨(timestamps_ordered_and_created_immutable
      [.createFolder 1 "Test" none, .updateFolder 5 1 "Renamed" none]
      { folders := [⟨1, "Test", none, 1, 1⟩], requests := [],
        nextFolderId := 2, nextRequestId := 1, clock := 1 }
      [.updateFolder 5 1 "Renamed" none]).1,
   ((timestamps_ordered_and_created_immutable
      [.createFolder 1 "Test" none, .updateFolder 5 1 "Renamed" none]
      { folders := [⟨1, "Test", none, 1, 1⟩], requests := [],
        nextFolderId := 2, nextRequestId := 1, clock := 1 }
      [.updateFolder 5 1 "Renamed" none]).2.2 (by decide)).1.trans (by decide)⟩

/-! ## Lemmas about the header JSON codec (for claim C5) -/

/-- Hex digits round-trip through the lower-case hex encoder. -/
theorem hexVal_hexDigit : ∀ d : Fin 16, hexVal (hexDigit d.1) = some d.1 := by
  decide

/-- Opening quote: the string parser closes immediately. -/
theorem decStr_quote (l : List Char) : decStr ('"' :: l) = some ([], l) := by
  unfold decStr
  rw [if_pos rfl]

/-- A simple backslash escape decodes to its character and the parse
continues. -/
theorem decStr_simple_escape (e c2 : Char) (l : List Char) (he : e ≠ 'u')
    (hse : simpleEscape e = some c2) :
    decStr ('\\' :: e :: l) = (decStr l).map (fun p => (c2 :: p.1, p.2)) := by
  conv_lhs => unfold decStr
  rw [if_neg (by decide), if_pos rfl]
  simp only [if_neg he, hse]

/-- A unicode escape with four valid hex digits decodes to the
corresponding character and the parse continues. -/
theorem decStr_unicode_escape (h1 h2 h3 h4 : Char) (a b cc d : Nat)
    (l : List Char) (hv1 : hexVal h1 = some a) (hv2 : hexVal h2 = some b)
    (hv3 : hexVal h3 = some cc) (hv4 : hexVal h4 = some d) :
    decStr ('\\' :: 'u' :: h1 :: h2 :: h3 :: h4 :: l) =
      (decStr l).map
        (fun p => (Char.ofNat (4096 * a + 256 * b + 16 * cc + d) :: p.1, p.2)) := by
  conv_lhs => unfold decStr
  rw [if_neg (by decide), if_pos rfl]
  simp only [hv1, hv2, hv3, hv4, if_true, eq_self_iff_true, reduceIte]

/-- A plain (unescaped, non-control) character decodes to itself. -/
theorem decStr_literal (c : Char) (l : List Char) (h1 : c ≠ '"')
    (h2 : c ≠ '\\') (h3 : ¬ c.toNat < 32) :
    decStr (c :: l) = (decStr l).map (fun p => (c :: p.1, p.2)) := by
  conv_lhs => unfold decStr
  rw [if_neg h1, if_neg h2, if_neg h3]

/-- A character equals the character built from its code. -/
theorem char_eq_ofNat (c : Char) (n : Nat) (h : c.toNat = n) :
    c = Char.ofNat n := by
  rw [← h, Char.ofNat_toNat]

/-- The string-body parser inverts the `encoding/json` escaper: decoding the
escaped body followed by the closing quote yields the original body and the
remainder. -/
theorem decStr_escapeList :
    ∀ (s rest : List Char), decStr (escapeList s ++ '"' :: rest) = some (s, rest)
  | [], rest => decStr_quote rest
  | c :: cs, rest => by
    have ih := decStr_escapeList cs rest
    show decStr ((escapeChar c ++ escapeList cs) ++ '"' :: rest) = _
    rw [List.append_assoc]
    unfold escapeChar
    by_cases h34 : c.toNat = 34
    · rw [if_pos h34, char_eq_ofNat c 34 h34]
      rw [show ((['\\', '"'] : List Char) ++ (escapeList cs ++ '"' :: rest)) =
        '\\' :: '"' :: (escapeList cs ++ '"' :: rest) from rfl]
      rw [decStr_simple_escape '"' (Char.ofNat 34) _ (by decide) (by decide), ih]
      rfl
    · rw [if_neg h34]
      by_cases h92 : c.toNat = 92
      · rw [if_pos h92, char_eq_ofNat c 92 h92]
        rw [show ((['\\', '\\'] : List Char) ++ (escapeList cs ++ '"' :: rest)) =
          '\\' :: '\\' :: (escapeList cs ++ '"' :: rest) from rfl]
        rw [decStr_simple_escape '\\' (Char.ofNat 92) _ (by decide) (by decide), ih]
        rfl
      · rw [if_neg h92]
        by_cases h10 : c.toNat = 10
        · rw [if_pos h10, char_eq_ofNat c 10 h10]
          rw [show ((['\\', 'n'] : List Char) ++ (escapeList cs ++ '"' :: rest)) =
            '\\' :: 'n' :: (escapeList cs ++ '"' :: rest) from rfl]
          rw [decStr_simple_escape 'n' (Char.ofNat 10) _ (by decide) (by decide), ih]
          rfl
        · rw [if_neg h10]
          by_cases h13 : c.toNat = 13
          · rw [if_pos h13, char_eq_ofNat c 13 h13]
            rw [show ((['\\', 'r'] : List Char) ++ (escapeList cs ++ '"' :: rest)) =
              '\\' :: 'r' :: (escapeList cs ++ '"' :: rest) from rfl]
            rw [decStr_simple_escape 'r' (Char.ofNat 13) _ (by decide) (by decide),
              ih]
            rfl
          · rw [if_neg h13]
            by_cases h9 : c.toNat = 9
            · rw [if_pos h9, char_eq_ofNat c 9 h9]
              rw [show ((['\\', 't'] : List Char) ++ (escapeList cs ++ '"' :: rest)) =
                '\\' :: 't' :: (escapeList cs ++ '"' :: rest) from rfl]
              rw [decStr_simple_escape 't' (Char.ofNat 9) _ (by decide) (by decide),
                ih]
              rfl
            · rw [if_neg h9]
              by_cases hlow : c.toNat < 32 ∨ c.toNat = 60 ∨ c.toNat = 62 ∨
                  c.toNat = 38
              · rw [if_pos hlow]
                have hb : c.toNat < 256 := by omega
                have hdiv : c.toNat / 16 < 16 := by omega
                have hmod : c.toNat % 16 < 16 := by omega
                rw [show ((['\\', 'u', '0', '0', hexDigit (c.toNat / 16),
                      hexDigit (c.toNat % 16)] : List Char) ++
                    (escapeList cs ++ '"' :: rest)) =
                  '\\' :: 'u' :: '0' :: '0' :: hexDigit (c.toNat / 16) ::
                    hexDigit (c.toNat % 16) :: (escapeList cs ++ '"' :: rest)
                  from rfl]
                rw [decStr_unicode_escape '0' '0' (hexDigit (c.toNat / 16))
                  (hexDigit (c.toNat % 16)) 0 0 (c.toNat / 16) (c.toNat % 16) _
                  (by decide) (by decide)
                  (hexVal_hexDigit ⟨c.toNat / 16, hdiv⟩)
                  (hexVal_hexDigit ⟨c.toNat % 16, hmod⟩), ih]
                have harith : 4096 * 0 + 256 * 0 + 16 * (c.toNat / 16) +
                    c.toNat % 16 = c.toNat := by omega
                rw [harith, Char.ofNat_toNat]
                rfl
              · rw [if_neg hlow]
                by_cases hls : c.toNat = 8232 ∨ c.toNat = 8233
                · rw [if_pos hls]
                  by_cases h2028 : c.toNat = 8232
                  · rw [if_pos h2028, char_eq_ofNat c 8232 h2028]
                    rw [show ((['\\', 'u', '2', '0', '2', '8'] : List Char) ++
                        (escapeList cs ++ '"' :: rest)) =
                      '\\' :: 'u' :: '2' :: '0' :: '2' :: '8' ::
                        (escapeList cs ++ '"' :: rest) from rfl]
                    rw [decStr_unicode_escape '2' '0' '2' '8' 2 0 2 8 _
                      (by decide) (by decide) (by decide) (by decide), ih]
                    rfl
                  · have h2029 : c.toNat = 8233 := by
                      rcases hls with h | h
                      · exact absurd h h2028
                      · exact h
                    rw [if_neg h2028, char_eq_ofNat c 8233 h2029]
                    rw [show ((['\\', 'u', '2', '0', '2', '9'] : List Char) ++
                        (escapeList cs ++ '"' :: rest)) =
                      '\\' :: 'u' :: '2' :: '0' :: '2' :: '9' ::
                        (escapeList cs ++ '"' :: rest) from rfl]
                    rw [decStr_unicode_escape '2' '0' '2' '9' 2 0 2 9 _
                      (by decide) (by decide) (by decide) (by decide), ih]
                    rfl
                · rw [if_neg hls]
                  rw [show (([c] : List Char) ++ (escapeList cs ++ '"' :: rest)) =
                    c :: (escapeList cs ++ '"' :: rest) from rfl]
                  rw [decStr_literal c _
                    (fun hc => h34 (by rw [hc]; rfl))
                    (fun hc => h92 (by rw [hc]; rfl))
                    (fun hc => hlow (Or.inl hc)), ih]
                  rfl

/-- Skipping whitespace in front of a non-whitespace character is the
identity. -/
theorem skipWs_cons (c : Char) (l : List Char) (h : isWs c = false) :
    skipWs (c :: l) = c :: l := by
  unfold skipWs
  rw [h]
  rfl

/-- A JSON string literal is the quoted escaped body. -/
theorem encStr_eq (s : List Char) :
    encStr s = '"' :: (escapeList s ++ ['"']) := rfl

/-- A JSON string literal followed by anything, as an explicit cons. -/
theorem encStr_append (s : List Char) (t : List Char) :
    encStr s ++ t = '"' :: (escapeList s ++ '"' :: t) := by
  rw [encStr_eq, List.cons_append, List.append_assoc]
  rfl

/-- One entry (or more) of the encoded object parses back to the entries in
textual order, consuming the closing brace. -/
theorem decodeEntries_encodeMapEntries :
    ∀ (es : List (String × String)) (k v : String) (rest : List Char)
      (fuel : Nat), es.length < fuel →
      decodeEntries fuel (encodeMapEntries ((k, v) :: es) ++ '}' :: rest) =
        some ((k, v) :: es, rest)
  | [], k, v, rest, fuel, hf => by
    cases fuel with
    | zero => exact absurd hf (by omega)
    | succ f =>
      have hs : encodeMapEntries [(k, v)] ++ '}' :: rest =
          '"' :: (escapeList k.data ++ '"' ::
            (':' :: ('"' :: (escapeList v.data ++ '"' :: ('}' :: rest))))) := by
        show (encStr k.data ++ ':' :: encStr v.data) ++ '}' :: rest = _
        rw [List.append_assoc, List.cons_append, encStr_append v.data,
          encStr_append k.data]
      have hdk : decStr (escapeList k.data ++ '"' ::
          (':' :: ('"' :: (escapeList v.data ++ '"' :: ('}' :: rest))))) =
          some (k.data, ':' :: ('"' :: (escapeList v.data ++ '"' ::
            ('}' :: rest)))) := decStr_escapeList k.data _
      have hdv : decStr (escapeList v.data ++ '"' :: ('}' :: rest)) =
          some (v.data, '}' :: rest) := decStr_escapeList v.data _
      have hw1 : skipWs (':' :: ('"' :: (escapeList v.data ++ '"' ::
          ('}' :: rest)))) = ':' :: ('"' :: (escapeList v.data ++ '"' ::
          ('}' :: rest))) := skipWs_cons _ _ (by decide)
      have hw2 : skipWs ('"' :: (escapeList v.data ++ '"' :: ('}' :: rest))) =
          '"' :: (escapeList v.data ++ '"' :: ('}' :: rest)) :=
        skipWs_cons _ _ (by decide)
      have hw3 : skipWs ('}' :: rest) = '}' :: rest :=
        skipWs_cons _ _ (by decide)
      rw [hs]
      conv_lhs => unfold decodeEntries
      simp only [if_pos rfl, hdk, hw1, hw2, hdv, hw3, if_true,
        eq_self_iff_true, reduceIte]
      rw [if_neg (show ¬('}' : Char) = ',' by decide)]
  | e :: es2, k, v, rest, fuel, hf => by
    cases fuel with
    | zero => exact absurd hf (by omega)
    | succ f =>
      have htail : ∃ tl : List Char,
          encodeMapEntries (e :: es2) ++ '}' :: rest = '"' :: tl := by
        cases es2 with
        | nil =>
          refine ⟨escapeList e.1.data ++ '"' ::
            (':' :: (encStr e.2.data ++ '}' :: rest)), ?_⟩
          obtain ⟨k2, v2⟩ := e
          show (encStr k2.data ++ ':' :: encStr v2.data) ++ '}' :: rest = _
          simp only [encStr_append, List.append_assoc, List.cons_append]
        | cons e2 es3 =>
          refine ⟨escapeList e.1.data ++ '"' ::
            (':' :: (encStr e.2.data ++ ',' ::
              (encodeMapEntries (e2 :: es3) ++ '}' :: rest))), ?_⟩
          obtain ⟨k2, v2⟩ := e
          have hunf : encodeMapEntries ((k2, v2) :: e2 :: es3) =
              encStr k2.data ++ ':' :: encStr v2.data ++
                ',' :: encodeMapEntries (e2 :: es3) := rfl
          rw [hunf]
          simp only [encStr_append, List.append_assoc, List.cons_append]
      rcases htail with ⟨tl, htl⟩
      have hs : encodeMapEntries ((k, v) :: e :: es2) ++ '}' :: rest =
          '"' :: (escapeList k.data ++ '"' ::
            (':' :: ('"' :: (escapeList v.data ++ '"' ::
              (',' :: ('"' :: tl)))))) := by
        have hunf : encodeMapEntries ((k, v) :: e :: es2) =
            encStr k.data ++ ':' :: encStr v.data ++
              ',' :: encodeMapEntries (e :: es2) := rfl
        rw [hunf]
        simp only [encStr_append, List.append_assoc, List.cons_append, htl]
      have hdk : decStr (escapeList k.data ++ '"' ::
          (':' :: ('"' :: (escapeList v.data ++ '"' ::
            (',' :: ('"' :: tl)))))) =
          some (k.data, ':' :: ('"' :: (escapeList v.data ++ '"' ::
            (',' :: ('"' :: tl))))) := decStr_escapeList k.data _
      have hdv : decStr (escapeList v.data ++ '"' :: (',' :: ('"' :: tl))) =
          some (v.data, ',' :: ('"' :: tl)) := decStr_escapeList v.data _
      have hw1 : skipWs (':' :: ('"' :: (escapeList v.data ++ '"' ::
          (',' :: ('"' :: tl))))) = ':' :: ('"' :: (escapeList v.data ++ '"' ::
          (',' :: ('"' :: tl)))) := skipWs_cons _ _ (by decide)
      have hw2 : skipWs ('"' :: (escapeList v.data ++ '"' ::
          (',' :: ('"' :: tl)))) = '"' :: (escapeList v.data ++ '"' ::
          (',' :: ('"' :: tl))) := skipWs_cons _ _ (by decide)
      have hw3 : skipWs (',' :: ('"' :: tl)) = ',' :: ('"' :: tl) :=
        skipWs_cons _ _ (by decide)
      have hw4 : skipWs ('"' :: tl) = '"' :: tl :=
        skipWs_cons _ _ (by decide)
      have hrec : decodeEntries f ('"' :: tl) = some ((e.1, e.2) :: es2, rest) := by
        rw [← htl]
        exact decodeEntries_encodeMapEntries es2 e.1 e.2 rest f
          (by simp at hf; omega)
      rw [hs]
      conv_lhs => unfold decodeEntries
      simp only [if_pos rfl, hdk, hw1, hw2, hdv, hw3, hw4, hrec, if_true,
        eq_self_iff_true, reduceIte]

/-- The encoding of one or more members is at least one character longer
than the number of remaining members. -/
theorem length_encodeMapEntries :
    ∀ (p : String × String) (es : List (String × String)),
      es.length < (encodeMapEntries (p :: es)).length
  | (k, v), [] => by
    have : encodeMapEntries [(k, v)] = encStr k.data ++ ':' :: encStr v.data :=
      rfl
    rw [this]
    simp
  | (k, v), e :: es2 => by
    have : encodeMapEntries ((k, v) :: e :: es2) =
        encStr k.data ++ ':' :: encStr v.data ++
          ',' :: encodeMapEntries (e :: es2) := rfl
    rw [this]
    have ih := length_encodeMapEntries e es2
    simp
    omega

/-- The top-level decoder inverts the object encoder. -/
theorem topDecode_encodeMap (h : HeaderMap) :
    topDecode ('{' :: encodeMapEntries h ++ ['}']) =
      some (some (h.foldl (fun m p => insertPair m p.1 p.2) [])) := by
  cases h with
  | nil =>
    have : ('{' :: encodeMapEntries [] ++ ['}'] : List Char) = ['{', '}'] := rfl
    rw [this]
    rfl
  | cons p es =>
    obtain ⟨k, v⟩ := p
    have htail : ∃ tl : List Char,
        encodeMapEntries ((k, v) :: es) ++ ['}'] = '"' :: tl ∧
        skipWs ('"' :: tl) = '"' :: tl := by
      cases es with
      | nil =>
        refine ⟨escapeList k.data ++ '"' ::
          (':' :: (encStr v.data ++ ['}'])), ?_, skipWs_cons _ _ (by decide)⟩
        show (encStr k.data ++ ':' :: encStr v.data) ++ ['}'] = _
        simp only [encStr_append, List.append_assoc, List.cons_append]
      | cons e2 es3 =>
        refine ⟨escapeList k.data ++ '"' ::
          (':' :: (encStr v.data ++ ',' ::
            (encodeMapEntries (e2 :: es3) ++ ['}']))), ?_,
          skipWs_cons _ _ (by decide)⟩
        have hunf : encodeMapEntries ((k, v) :: e2 :: es3) =
            encStr k.data ++ ':' :: encStr v.data ++
              ',' :: encodeMapEntries (e2 :: es3) := rfl
        rw [hunf]
        simp only [encStr_append, List.append_assoc, List.cons_append]
    rcases htail with ⟨tl, htl, hwtl⟩
    have hfull : ('{' :: encodeMapEntries ((k, v) :: es) ++ ['}'] : List Char) =
        '{' :: ('"' :: tl) := by
      rw [List.cons_append, htl]
    rw [hfull]
    conv_lhs => unfold topDecode
    rw [skipWs_cons '{' _ (by decide)]
    have hlen : es.length <
        ('{' :: ('"' :: tl) : List Char).length + 1 := by
      have h1 := length_encodeMapEntries (k, v) es
      have h2 : ('{' :: encodeMapEntries ((k, v) :: es) ++ ['}'] :
          List Char).length = (encodeMapEntries ((k, v) :: es)).length + 2 := by
        simp
      have h3 := congrArg List.length hfull
      rw [h2] at h3
      simp only [List.length_cons] at h3 ⊢
      omega
    have hdec := decodeEntries_encodeMapEntries es k v []
      (('{' :: ('"' :: tl) : List Char).length + 1) hlen
    have hshape : encodeMapEntries ((k, v) :: es) ++ '}' :: ([] : List Char) =
        '"' :: tl := htl
    rw [hshape] at hdec
    simp only [if_neg (show ¬('{' : Char) = 'n' by decide), if_pos rfl, hwtl,
      if_neg (show ¬('"' : Char) = '}' by decide), hdec]
    rfl

/-- Inserting a fresh key appends the binding. -/
theorem insertPair_fresh (m : HeaderMap) (k v : String)
    (h : ∀ p ∈ m, p.1 ≠ k) : insertPair m k v = m ++ [(k, v)] := by
  unfold insertPair
  rw [if_neg]
  intro hc
  rw [List.any_eq_true] at hc
  rcases hc with ⟨p, hp, hpk⟩
  exact h p hp (by simpa using hpk)

/-- Folding `insertPair` over members with pairwise-distinct keys, starting
from a prefix whose keys are disjoint from them, concatenates. -/
theorem foldl_insertPair :
    ∀ (es acc : HeaderMap), ((acc ++ es).map Prod.fst).Nodup →
      es.foldl (fun m p => insertPair m p.1 p.2) acc = acc ++ es
  | [], acc, _ => by simp
  | e :: tl, acc, hnd => by
    have hfresh : ∀ p ∈ acc, p.1 ≠ e.1 := by
      intro p hp hc
      have hnd2 := hnd
      rw [List.map_append] at hnd2
      have hdisj := List.disjoint_of_nodup_append hnd2
      refine hdisj (List.mem_map_of_mem Prod.fst hp) ?_
      rw [hc, List.map_cons]
      exact List.mem_cons_self _ _
    have hstep : insertPair acc e.1 e.2 = acc ++ [e] := by
      have := insertPair_fresh acc e.1 e.2 hfresh
      rw [this]
    have hnd3 : (((acc ++ [e]) ++ tl).map Prod.fst).Nodup := by
      rw [List.append_assoc, List.singleton_append]
      exact hnd
    have ih := foldl_insertPair tl (acc ++ [e]) hnd3
    rw [List.foldl_cons, hstep, ih, List.append_assoc, List.singleton_append]

/-- Sorting the members is a permutation. -/
theorem sortPairs_perm (h : HeaderMap) : (sortPairs h).Perm h :=
  List.perm_insertionSort _ h

/-- Association-list lookup is invariant under permutation when the keys are
distinct. -/
theorem lookup_eq_of_perm :
    ∀ {l1 l2 : HeaderMap}, l1.Perm l2 → (l1.map Prod.fst).Nodup →
      ∀ k : String, l1.lookup k = l2.lookup k := by
  intro l1 l2 hp
  induction hp with
  | nil => exact fun _ _ => rfl
  | cons x hp2 ih =>
    intro hnd k
    obtain ⟨a, b⟩ := x
    show List.lookup k ((a, b) :: _) = List.lookup k ((a, b) :: _)
    by_cases hk : (k == a) = true
    · simp [List.lookup, hk]
    · have hk2 : (k == a) = false := by simpa using hk
      simp only [List.lookup, hk2]
      exact ih (by
        rw [List.map_cons] at hnd
        exact (List.nodup_cons.mp hnd).2) k
  | swap x y l =>
    intro hnd k
    obtain ⟨a1, b1⟩ := x
    obtain ⟨a2, b2⟩ := y
    have hne : a2 ≠ a1 := by
      rw [List.map_cons, List.map_cons] at hnd
      have := (List.nodup_cons.mp hnd).1
      intro hc
      exact this (by rw [hc]; exact List.mem_cons_self _ _)
    by_cases hk1 : (k == a1) = true
    · have hk2 : (k == a2) = false := by
        have : k = a1 := by simpa using hk1
        simp [this]
        exact fun hc => hne hc.symm
      simp [List.lookup, hk1, hk2]
    · have hk1f : (k == a1) = false := by simpa using hk1
      by_cases hk2 : (k == a2) = true
      · simp [List.lookup, hk1f, hk2]
      · have hk2f : (k == a2) = false := by simpa using hk2
        simp [List.lookup, hk1f, hk2f]
  | trans h12 h23 ih12 ih23 =>
    intro hnd k
    rw [ih12 hnd k]
    refine ih23 ?_ k
    exact ((h12.map Prod.fst).nodup_iff).mp hnd

/-- Deserialization inverts serialization: the stored text decodes to the
key-sorted form of the (nil-defaulted) mapping, which is not `nil`. -/
theorem deserialize_serialize (h : Option HeaderMap)
    (hnd : ((h.getD []).map Prod.fst).Nodup) :
    deserializeHeaders (serializeHeaders h) =
      .ok (some (sortPairs (h.getD []))) := by
  have hperm : (sortPairs (h.getD [])).Perm (h.getD []) :=
    sortPairs_perm (h.getD [])
  have hndS : ((sortPairs (h.getD [])).map Prod.fst).Nodup :=
    ((hperm.map Prod.fst).nodup_iff).mpr hnd
  have hfold : (sortPairs (h.getD [])).foldl
      (fun m p => insertPair m p.1 p.2) [] = sortPairs (h.getD []) := by
    have := foldl_insertPair (sortPairs (h.getD [])) []
      (by rw [List.nil_append]; exact hndS)
    rw [this, List.nil_append]
  unfold deserializeHeaders serializeHeaders
  rw [if_neg (by
    intro hc
    have := congrArg String.data hc
    simp at this)]
  have hdata : (String.mk ('{' :: encodeMapEntries (sortPairs (h.getD [])) ++
      ['}'])).data = '{' :: encodeMapEntries (sortPairs (h.getD [])) ++ ['}'] :=
    rfl
  rw [hdata, topDecode_encodeMap, hfold]

/-- A point lookup on rows extended with a fresh row finds the new row. -/
theorem find?_requests_append (row : RequestRow) :
    ∀ l : List RequestRow, (∀ r ∈ l, r.id ≠ row.id) →
      (l ++ [row]).find? (fun r => r.id == row.id) = some row
  | [], _ => by
    rw [List.nil_append]
    exact List.find?_cons_of_pos (p := fun (r : RequestRow) => r.id == row.id)
      _ (by simp)
  | r :: t, hab => by
    rw [List.cons_append,
      List.find?_cons_of_neg (p := fun (rr : RequestRow) => rr.id == row.id) _
        (by simp; exact hab r (List.mem_cons_self r t))]
    exact find?_requests_append row t
      (fun rr hrr => hab rr (List.mem_cons_of_mem r hrr))

/-! ## Claim C5: header round-trip through createRequest / getRequest -/

/-- Claim C5: an absent (`nil`) and an empty header mapping both serialize
to the two-character object text; deserializing the empty string yields the
empty mapping; and for every header mapping (absent included), creating a
request and re-reading it by the new id returns a non-nil mapping that
agrees with the supplied one on every key. -/
theorem header_roundtrip (h : Option HeaderMap) (s : Store) (now : Nat)
    (name : String) (fid : Option Int) (method url body : String)
    (hnd : ((h.getD []).map Prod.fst).Nodup)
    (hfresh : ∀ r ∈ s.requests, r.id ≠ s.nextRequestId) :
    serializeHeaders none = serializeHeaders (some []) ∧
    (serializeHeaders none).data = ['{', '}'] ∧
    deserializeHeaders "" = .ok (some []) ∧
    ∃ m : HeaderMap,
      (∀ k : String, m.lookup k = (h.getD []).lookup k) ∧
      ∃ r : RequestOut,
        (CreateRequest now name fid method url h body false s).1 = .ok r ∧
        GetRequest ((CreateRequest now name fid method url h body false s).2.1)
          ((CreateRequest now name fid method url h body false s).2.2) =
          .ok r ∧
        r.headers = some m := by
  refine ⟨rfl, rfl, rfl, sortPairs (h.getD []), ?_, ?_⟩
  · intro k
    exact lookup_eq_of_perm (sortPairs_perm (h.getD []))
      (((sortPairs_perm (h.getD [])).map Prod.fst).nodup_iff.mpr hnd) k
  · let row : RequestRow :=
      ⟨s.nextRequestId, name, fid, method, url, serializeHeaders h, body,
        tick s now, tick s now⟩
    let s1 : Store :=
      { folders := s.folders, requests := s.requests ++ [row],
        nextFolderId := s.nextFolderId, nextRequestId := s.nextRequestId + 1,
        clock := tick s now }
    have hcr : CreateRequest now name fid method url h body false s =
        (GetRequest row.id s1, row.id, s1) := by
      unfold CreateRequest
      simp only [if_neg (show ¬(false = true) by simp)]
    have hfind : findRequest row.id s1 = some row := by
      show (s.requests ++ [row]).find? (fun r => r.id == row.id) = some row
      exact find?_requests_append row s.requests hfresh
    have hget : GetRequest row.id s1 =
        .ok (rowToRequestOut row (some (sortPairs (h.getD [])))) := by
      unfold GetRequest
      rw [hfind]
      have hh : row.headers = serializeHeaders h := rfl
      show (match deserializeHeaders row.headers with
        | Except.error e => Except.error e
        | Except.ok hm => Except.ok (rowToRequestOut row hm)) = _
      rw [hh, deserialize_serialize h hnd]
    refine ⟨rowToRequestOut row (some (sortPairs (h.getD []))), ?_, ?_, rfl⟩
    · rw [hcr]
      exact hget
    · rw [hcr]
      exact hget

/-- Witness for C5 at the spec's own example mapping, on the fresh store. -/
theorem header_roundtrip_witness :
    serializeHeaders none = serializeHeaders (some []) ∧
    (serializeHeaders none).data = ['{', '}'] ∧
    deserializeHeaders "" = .ok (some []) ∧
    ∃ m : HeaderMap,
      (∀ k : String, m.lookup k =
        (((some [("Content-Type", "application/json"), ("X-Test", "true")] :
          Option HeaderMap)).getD []).lookup k) ∧
      ∃ r : RequestOut,
        (CreateRequest 1 "Req" none "GET" "https://example.com"
          (some [("Content-Type", "application/json"), ("X-Test", "true")])
          "" false emptyStore).1 = .ok r ∧
        GetRequest ((CreateRequest 1 "Req" none "GET" "https://example.com"
          (some [("Content-Type", "application/json"), ("X-Test", "true")])
          "" false emptyStore).2.1)
          ((CreateRequest 1 "Req" none "GET" "https://example.com"
            (some [("Content-Type", "application/json"), ("X-Test", "true")])
            "" false emptyStore).2.2) = .ok r ∧
        r.headers = some m :=
  header_roundtrip
    (some [("Content-Type", "application/json"), ("X-Test", "true")])
    emptyStore 1 "Req" none "GET" "https://example.com" ""
    (by decide) (fun r hr => absurd hr (List.not_mem_nil r))

end HC
